import Mathlib

/-! # bcpu16 toolchain: command-line parser, driver and source file

A shallow embedding of `CommandLineParam` (with `StringParam`, `BoolParam`,
`IntParam`) and of `CommandLine` (`cmdline.h`, `cmdline.cpp`), of the registry
that `main` builds (`asmmain.cpp`) and of `SourceFile` (`sourcefile.h`,
`sourcefile.cpp`), followed by theorems about them.

Modelling conventions.

* `std::string` is `List Char` (`CppString`); one `Char` stands for one C++ `char`.
* `CommandLine::params` is a `std::vector<CommandLineParam*>`.  A pointer is an
  address (`Ptr`), and the objects the pointers refer to live in `objs`, so that
  a declaration registered twice is one object, as in the C++.
* A member function that mutates `this` returns the new object next to its
  C++ return value.
* The lines written to `std::cerr` are not part of the state; `error` keeps its
  message argument and returns `false`.
* `int` is a 32-bit two's complement integer; `std::stoi` fails outside it.
-/

namespace Bcpu16

/-- The type `std::string`, one `Char` per C++ `char`. -/
abbrev CppString := List Char

/-- The address of a `CommandLineParam` object (a `CommandLineParam*`). -/
abbrev Ptr := Nat

namespace Str

/-- The call `s.find(c)`: the position of the first `c` in `s`; `none` is `npos`. -/
def find : CppString → Char → Option Nat
  | [], _ => none
  | x :: xs, c => if x = c then some 0 else (find xs c).map (· + 1)

/-- The call `s.substr(pos)`, used in the source only with `pos <= s.length()`. -/
def substrFrom (s : CppString) (pos : Nat) : CppString := s.drop pos

/-- The call `s.substr(pos, len)`, used in the source only with `pos <= s.length()`. -/
def substr (s : CppString) (pos len : Nat) : CppString := (s.drop pos).take len

/-- The character `s[i]`; the source reads it only below `s.length()`. -/
def charAt (s : CppString) (i : Nat) : Char := s.getD i (Char.ofNat 0)

end Str

/-! ## The standard library: `std::stoi` and `std::to_string` -/

/-- Least value of `int`. -/
def INT_MIN : Int := -2147483648

/-- Greatest value of `int`. -/
def INT_MAX : Int := 2147483647

/-- The C function `isspace` in the "C" locale. -/
def isspace (c : Char) : Bool :=
  c = ' ' || c = '\t' || c = '\n' || c = Char.ofNat 11 || c = Char.ofNat 12 || c = '\r'

/-- A decimal digit character. -/
def isdigit (c : Char) : Bool := '0' ≤ c && c ≤ '9'

/-- The value of a decimal digit character. -/
def digitValue (c : Char) : Nat := c.toNat - '0'.toNat

/-- The number a run of decimal digits denotes, most significant digit first. -/
def digitsValue (ds : List Char) : Nat := ds.foldl (fun acc c => 10 * acc + digitValue c) 0

/-- The call `std::stoi(str)` (base 10, no `pos` argument), which is `strtol`:
skip leading white space, read an optional sign, then the longest run of decimal
digits; what follows the digits is ignored.  `none` stands for a thrown
exception: `std::invalid_argument` when there is no digit to convert,
`std::out_of_range` when the number does not fit an `int`. -/
def stoi (str : CppString) : Option Int :=
  let s := str.dropWhile isspace
  let negative := s.head? = some '-'
  let s := if s.head? = some '-' ∨ s.head? = some '+' then s.drop 1 else s
  let ds := s.takeWhile isdigit
  if ds.isEmpty then none
  else
    let v : Int := if negative then -(digitsValue ds : Int) else (digitsValue ds : Int)
    if v < INT_MIN ∨ v > INT_MAX then none else some v

/-- The call `std::to_string(int)`: a minus sign for a negative number, then the
decimal digits without leading zeros. -/
def to_string (n : Int) : CppString :=
  if n < 0 then '-' :: Nat.toDigits 10 n.natAbs else Nat.toDigits 10 n.natAbs

/-! ## `CommandLineParam` and its subclasses -/

/-- The dynamic class of a declaration with the members the subclass adds.
`StringParam` adds none and overrides nothing, so it also stands for a plain
`CommandLineParam`. -/
inductive ParamClass where
  | StringParam
  | BoolParam (value : Bool)
  | IntParam (value : Int) (_minValue : Int) (_maxValue : Int)
  deriving DecidableEq, Repr

/-- An object of class `CommandLineParam`. -/
structure CommandLineParam where
  shortName : CppString
  longName : CppString
  mandatory : Bool
  needsValue : Bool
  defValue : CppString
  description : CppString
  strValue : CppString
  _isSet : Bool
  cls : ParamClass
  deriving DecidableEq, Repr

/-- Constructor `StringParam(short, long, description, isMandatory, defaultValue)`. -/
def StringParam (paramShortName paramLongName paramDescription : CppString)
    (isMandatory : Bool) (defaultValue : CppString) : CommandLineParam :=
  { shortName := paramShortName, longName := paramLongName, mandatory := isMandatory,
    needsValue := true, defValue := defaultValue, description := paramDescription,
    strValue := [], _isSet := false, cls := .StringParam }

/-- Constructor `BoolParam(short, long, description, defValue = false)`. -/
def BoolParam (paramShortName paramLongName paramDescription : CppString)
    (defValue : Bool) : CommandLineParam :=
  { shortName := paramShortName, longName := paramLongName, mandatory := false,
    needsValue := false,
    defValue := if defValue then "true".toList else "false".toList,
    description := paramDescription,
    strValue := if defValue then "true".toList else "false".toList,
    _isSet := false, cls := .BoolParam defValue }

/-- Constructor `IntParam(short, long, description, mandatory, defValue, minValue, maxValue)`. -/
def IntParam (paramShortName paramLongName paramDescription : CppString)
    (mandatory : Bool) (defValue minValue maxValue : Int) : CommandLineParam :=
  { shortName := paramShortName, longName := paramLongName, mandatory := mandatory,
    needsValue := true, defValue := to_string defValue, description := paramDescription,
    strValue := to_string defValue, _isSet := false,
    cls := .IntParam defValue minValue maxValue }

namespace CommandLineParam

/-- Member `sameName`: true if `name` matches the long or the short name. -/
def sameName (self : CommandLineParam) (name : CppString) : Bool :=
  self.longName == name || self.shortName == name

/-- Member `name`: the long name if defined, otherwise the short name. -/
def name (self : CommandLineParam) : CppString :=
  if self.longName.isEmpty then self.shortName else self.longName

/-- Member `isSet`. -/
def isSet (self : CommandLineParam) : Bool := self._isSet

/-- Member `getString`. -/
def getString (self : CommandLineParam) : CppString := self.strValue

/-- Virtual member `getBool`: `true` in the base class, `value` in `BoolParam`. -/
def getBool (self : CommandLineParam) : Bool :=
  match self.cls with
  | .BoolParam value => value
  | _ => true

/-- Virtual member `getInt`: `0` in the base class, `value` in `IntParam`. -/
def getInt (self : CommandLineParam) : Int :=
  match self.cls with
  | .IntParam value _ _ => value
  | _ => 0

/-- The strings `BoolParam::setValue` reads as true. -/
def truthy : List CppString :=
  ["1".toList, "y".toList, "yes".toList, "t".toList, "true".toList, "on".toList]

/-- The strings `BoolParam::setValue` reads as false. -/
def falsy : List CppString :=
  ["0".toList, "n".toList, "no".toList, "f".toList, "false".toList, "off".toList]

/-- Virtual member `setValue`: the object after the call and the returned flag.
The `BoolParam` override first stores what the token says and then, on every
path that did not return, stores `"true"`, `true` and `_isSet = true`.  The
`IntParam` override stores `value` and `_isSet` and does not touch `strValue`. -/
def setValue (self : CommandLineParam) (str : CppString) : Bool × CommandLineParam :=
  match self.cls with
  | .StringParam => (true, { self with strValue := str, _isSet := true })
  | .BoolParam _ =>
    let decoded : Option CommandLineParam :=
      if !str.isEmpty then
        if str ∈ truthy then
          some { self with strValue := "true".toList, cls := .BoolParam true }
        else if str ∈ falsy then
          some { self with strValue := "false".toList, cls := .BoolParam false }
        else none
      else some self
    match decoded with
    | none => (false, self)
    | some self1 =>
      (true, { self1 with strValue := "true".toList, cls := .BoolParam true, _isSet := true })
  | .IntParam _ _minValue _maxValue =>
    match stoi str with
    | none => (false, self)
    | some intValue =>
      if _minValue ≠ _maxValue ∧ (intValue < _minValue ∨ intValue > _maxValue) then
        (false, self)
      else
        (true, { self with cls := .IntParam intValue _minValue _maxValue, _isSet := true })

end CommandLineParam

/-! ## `CommandLine` -/

/-- An object of class `CommandLine` together with the declaration objects its
pointers refer to (`objs`, owned by the driver).  `pendingValueArg = none` is
the null pointer. -/
structure CommandLine where
  simpleArgs : List CppString
  params : List Ptr
  pendingValueArg : Option Ptr
  objs : Ptr → CommandLineParam

namespace CommandLine

/-- Constructor `CommandLine()`: no positional, no declaration, nothing pending. -/
def new (objs : Ptr → CommandLineParam) : CommandLine :=
  { simpleArgs := [], params := [], pendingValueArg := none, objs := objs }

/-- Member `registerParam`: `params.push_back(param)`. -/
def registerParam (self : CommandLine) (param : Ptr) : CommandLine :=
  { self with params := self.params ++ [param] }

/-- The loop of `findParam` over the vector, first element first. -/
def findParamLoop (objs : Ptr → CommandLineParam) (paramName : CppString) :
    List Ptr → Option Ptr
  | [] => none
  | p :: rest =>
    if (objs p).sameName paramName then some p else findParamLoop objs paramName rest

/-- Member `findParam`; `none` is the null pointer. -/
def findParam (self : CommandLine) (paramName : CppString) : Option Ptr :=
  findParamLoop self.objs paramName self.params

/-- Member `error`: writes the message to `std::cerr` and returns `false`. -/
def error (self : CommandLine) (_errMessage : CppString) : Bool × CommandLine :=
  (false, self)

/-- Member `addSimpleArg`. -/
def addSimpleArg (self : CommandLine) (arg : CppString) : Bool × CommandLine :=
  (true, { self with simpleArgs := self.simpleArgs ++ [arg] })

/-- Member `addArg`: `param->setValue(value)`, an error when it fails. -/
def addArg (self : CommandLine) (param : Ptr) (value : CppString) : Bool × CommandLine :=
  let r := (self.objs param).setValue value
  let self1 := { self with objs := Function.update self.objs param r.2 }
  if !r.1 then
    self1.error ("invalid value ".toList ++ value ++ " for parameter ".toList
      ++ (self1.objs param).name)
  else (true, self1)

/-- The name of the pending declaration, for the messages. -/
def pendingName (self : CommandLine) : CppString :=
  match self.pendingValueArg with
  | some p => (self.objs p).name
  | none => []

/-- Member `pushArg`. -/
def pushArg (self : CommandLine) (arg : CppString) : Bool × CommandLine :=
  if arg.length ≥ 2 ∧ Str.charAt arg 0 = '-' ∧ self.pendingValueArg.isSome then
    self.error ("Expected value for argument ".toList ++ self.pendingName
      ++ " but found ".toList ++ arg)
  else
    let paramNamePrefix : Nat :=
      if arg.length ≥ 2 ∧ Str.charAt arg 0 = '-' then
        (if Str.charAt arg 1 = '-' then 2 else 1)
      else 0
    let s := Str.substrFrom arg paramNamePrefix
    if s.length < 1 ∨ Str.charAt s 0 = '-' then
      self.error ("Invalid commandline argument ".toList ++ arg)
    else if paramNamePrefix = 0 then
      match self.pendingValueArg with
      | some pending =>
        let res := self.addArg pending arg
        (res.1, { res.2 with pendingValueArg := none })
      | none => self.addSimpleArg arg
    else
      let split : CppString × CppString :=
        if paramNamePrefix = 1 then
          (Str.substr s 0 1, if s.length > 1 then Str.substrFrom s 1 else [])
        else
          match Str.find s '=' with
          | none => (s, [])
          | some eqpos => (Str.substr s 0 eqpos, Str.substrFrom s (eqpos + 1))
      let pname := split.1
      let pvalue := split.2
      match self.findParam pname with
      | none => self.error ("unknown parameter ".toList ++ pname)
      | some param =>
        if (self.objs param).needsValue then
          if pvalue.isEmpty then (true, { self with pendingValueArg := some param })
          else self.addArg param pvalue
        else if !pvalue.isEmpty then
          self.error ("unexpected value for parameter ".toList ++ pname)
        else self.addArg param pvalue

/-- Member `validate`; it changes nothing. -/
def validate (self : CommandLine) : Bool :=
  if self.pendingValueArg.isSome then false
  else if self.params.any (fun p => (self.objs p).mandatory && !(self.objs p).isSet) then false
  else true

/-- The loop of `parse` over the tokens `argv[1]`, ..., `argv[argc-1]`, then `validate`. -/
def parseLoop (self : CommandLine) : List CppString → Bool × CommandLine
  | [] => (self.validate, self)
  | arg :: rest =>
    let r := self.pushArg arg
    if !r.1 then (false, r.2) else parseLoop r.2 rest

/-- Member `parse(argc, argv)`, with `argc = argv.length`; `argv[0]` is skipped. -/
def parse (self : CommandLine) (argv : List CppString) : Bool × CommandLine :=
  self.parseLoop (argv.drop 1)

end CommandLine

/-! ## `SourceFile` (`sourcefile.h`, `sourcefile.cpp`)

`lines` is a `std::vector<SourceLine*>` of lines the file owns; the vector is a
list of the lines themselves.  The back pointer `SourceLine::file` is left out.
A read `lines[index]` outside the vector is undefined behaviour in the C++ and
is the result `outOfBounds` here. -/

/-- The conversion of a `size_t` to `int`: the value modulo 2^32, read as a
signed 32-bit number. -/
def intOfSize (n : Nat) : Int :=
  if n % 4294967296 < 2147483648 then ((n % 4294967296 : Nat) : Int)
  else ((n % 4294967296 : Nat) : Int) - 4294967296

/-- An object of class `SourceLine`. -/
structure SourceLine where
  text : CppString
  lineNumber : Int
  deriving DecidableEq, Repr

/-- Member `getText`. -/
def SourceLine.getText (self : SourceLine) : CppString := self.text

/-- Member `getLineNumber`. -/
def SourceLine.getLineNumber (self : SourceLine) : Int := self.lineNumber

/-- An object of class `SourceFile`. -/
structure SourceFile where
  includedFrom : Option SourceLine
  pathname : CppString
  lines : List SourceLine
  deriving DecidableEq, Repr

/-- What `SourceFile::line` evaluates to: the null pointer, a stored line, or a
read outside the vector. -/
inductive LineAccess where
  | null
  | line (l : SourceLine)
  | outOfBounds
  deriving DecidableEq, Repr

namespace SourceFile

/-- Constructor `SourceFile()`. -/
def new : SourceFile := { includedFrom := none, pathname := [], lines := [] }

/-- Member `addLine`: `lines.push_back(new SourceLine(this, text, lines.size() + 1))`. -/
def addLine (self : SourceFile) (text : CppString) : SourceFile :=
  { self with lines := self.lines ++ [{ text := text, lineNumber := intOfSize (self.lines.length + 1) }] }

/-- Member `clear`. -/
def clear (self : SourceFile) : SourceFile := { self with lines := [] }

/-- Member `lineCount`. -/
def lineCount (self : SourceFile) : Int := intOfSize self.lines.length

/-- Member `line(index)`: null when `index < 0 || index > (int)lines.size()`,
otherwise `lines[index]`. -/
def line (self : SourceFile) (index : Int) : LineAccess :=
  if index < 0 ∨ index > intOfSize self.lines.length then .null
  else
    match self.lines[index.toNat]? with
    | some l => .line l
    | none => .outOfBounds

/-- Member `load(fileName)`.  The file system is the argument `file`: `none` when
the file cannot be opened, otherwise the lines `std::getline` reads from it. -/
def load (self : SourceFile) (fileName : CppString) (file : Option (List CppString)) :
    Bool × SourceFile :=
  match file with
  | none => (false, self)
  | some content => (true, content.foldl addLine { self with pathname := fileName })

end SourceFile

/-! ## Definitions used to state the theorems -/

/-- The last part of `pushArg` (from `findParam(pname)` on) as a function of the
extracted name and inline value; the lemma `pushArg_eq_classify` shows `pushArg`
equal to it on every option token met in an Idle state. -/
def CommandLine.dispatch (self : CommandLine) (pname pvalue : CppString) : Bool × CommandLine :=
  match self.findParam pname with
  | none => self.error ("unknown parameter ".toList ++ pname)
  | some param =>
    if (self.objs param).needsValue then
      if pvalue.isEmpty then (true, { self with pendingValueArg := some param })
      else self.addArg param pvalue
    else if !pvalue.isEmpty then
      self.error ("unexpected value for parameter ".toList ++ pname)
    else self.addArg param pvalue

/-- A declaration of class `StringParam`: the base `setValue`, and a value is needed. -/
def IsStringParam (p : CommandLineParam) : Prop := p.cls = .StringParam ∧ p.needsValue = true

/-- The four declarations of the documented example, at the addresses 0 to 3:
the flag `v`/`verbose`, the mandatory string `o`/`out`, the optional string
`l`/`lst` and the integer `j`/`threads` with default 1 and range [1,16]. -/
def exampleObjs : Ptr → CommandLineParam
  | 0 => BoolParam "v".toList "verbose".toList "turn on diagnostic messages".toList false
  | 1 => StringParam "o".toList "out".toList "output file".toList true []
  | 2 => StringParam "l".toList "lst".toList "list file".toList false []
  | 3 => IntParam "j".toList "threads".toList "number of threads".toList false 1 1 16
  | _ => StringParam [] [] [] false []

/-- A fresh parser with the four declarations of the example registered in order. -/
def exampleCmdline : CommandLine :=
  ((((CommandLine.new exampleObjs).registerParam 0).registerParam 1).registerParam 2).registerParam 3

/-- The state in which declaration `d` holds the string `v` and is set, all else as in `cl`. -/
def CommandLine.withString (cl : CommandLine) (d : Ptr) (v : CppString) : CommandLine :=
  { cl with objs := (Function.update cl.objs d { cl.objs d with strValue := v, _isSet := true }) }

/-- The digits of a token once an optional leading sign is removed. -/
def decimalBody (s : CppString) : CppString :=
  if s.head? = some '-' ∨ s.head? = some '+' then s.drop 1 else s

/-- The token is, in its entirety, a base-10 signed integer: an optional sign
followed by one or more decimal digits and nothing else. -/
def isDecimalText (s : CppString) : Bool :=
  !(decimalBody s).isEmpty && (decimalBody s).all isdigit

/-- The integer a decimal text denotes. -/
def decimalValue (s : CppString) : Int :=
  if s.head? = some '-' then -(digitsValue (decimalBody s) : Int)
  else (digitsValue (decimalBody s) : Int)

/-- The token starts with a number: after optional leading white space and an
optional sign comes a decimal digit. -/
def hasLeadingNumber (s : CppString) : Bool :=
  match (decimalBody (s.dropWhile isspace)).head? with
  | some c => isdigit c
  | none => false

/-- The classes of tokens of the parser's transition rules. -/
inductive TokenClass where
  | invalid
  | plain
  | option (pname pvalue : CppString)
  deriving DecidableEq, Repr

/-- Token classification as the transition rules word it.  A token of length at
least 2 that starts with `-` is an option token: one or two dashes are
stripped, the remainder must be non-empty and must not start with `-`; in the
short form the first character of the remainder is the name and the rest the
inline value, in the long form the remainder is split at the first `=`.  Any
other token is plain, unless it is empty or the lone `-`. -/
def classify (arg : CppString) : TokenClass :=
  match arg with
  | [] => .invalid
  | [a] => if a = '-' then .invalid else .plain
  | a :: b :: rest =>
    if a = '-' then
      if b = '-' then
        if rest = [] ∨ rest.head? = some '-' then .invalid
        else
          match Str.find rest '=' with
          | none => .option rest []
          | some eqpos => .option (rest.take eqpos) (rest.drop (eqpos + 1))
      else .option [b] rest
    else .plain

/-- The state after `pushArg` accepted every token of the list in order; `none`
when one of them is rejected. -/
def CommandLine.pushAll (cl : CommandLine) : List CppString → Option CommandLine
  | [] => some cl
  | t :: ts => if (cl.pushArg t).1 then CommandLine.pushAll (cl.pushArg t).2 ts else none

/-- The same declaration with another `mandatory` flag. -/
def CommandLineParam.withMandatory (p : CommandLineParam) (b : Bool) : CommandLineParam :=
  { p with mandatory := b }

/-- The same parser with the `mandatory` flag of each declaration replaced by `m`. -/
def CommandLine.withMandatory (m : Ptr → Bool) (cl : CommandLine) : CommandLine :=
  { cl with objs := fun q => (cl.objs q).withMandatory (m q) }

/-- The members of a declaration that are `const` in the C++ together with its
dynamic class: what no member function can change. -/
def CommandLineParam.sameDecl (p q : CommandLineParam) : Prop :=
  p.shortName = q.shortName ∧ p.longName = q.longName ∧ p.mandatory = q.mandatory
  ∧ p.needsValue = q.needsValue ∧ p.defValue = q.defValue ∧ p.description = q.description
  ∧ (p.cls = .StringParam ↔ q.cls = .StringParam)
  ∧ (∀ mn mx, (∃ v, p.cls = .IntParam v mn mx) ↔ (∃ v, q.cls = .IntParam v mn mx))
  ∧ ((∃ b, p.cls = .BoolParam b) ↔ (∃ b, q.cls = .BoolParam b))

/-- Two parser states over the same registry: the same pointers in the same
order, and each object the same declaration. -/
def CommandLine.sameRegistry (a b : CommandLine) : Prop :=
  a.params = b.params ∧ ∀ q, (a.objs q).sameDecl (b.objs q)

/-- The declaration a token supplies a value to in state `cl`, with that raw
value, as the transition rules word it: while a declaration is pending, a plain
token is its value; when idle, an option token with an inline value supplies it
to the value-needing declaration it names, and a bare option token supplies the
empty string to the presence flag it names. -/
def CommandLine.supplied (cl : CommandLine) (t : CppString) : Option (Ptr × CppString) :=
  match cl.pendingValueArg with
  | some d =>
    (match classify t with
     | .plain => some (d, t)
     | _ => none)
  | none =>
    (match classify t with
     | .option pname pvalue =>
       (match cl.findParam pname with
        | some d =>
          if (cl.objs d).needsValue then
            (if pvalue.isEmpty then none else some (d, pvalue))
          else (if pvalue.isEmpty then some (d, []) else none)
        | none => none)
     | _ => none)

/-- The raw value of the last occurrence of declaration `d` in the token list,
processed from state `cl`; `none` when no token supplies `d`. -/
def CommandLine.lastSupplied (cl : CommandLine) (d : Ptr) : List CppString → Option CppString
  | [] => none
  | t :: ts =>
    match CommandLine.lastSupplied (cl.pushArg t).2 d ts with
    | some v => some v
    | none =>
      (match cl.supplied t with
       | some (d1, v) => if d1 = d then some v else none
       | none => none)

/-- The parser of `main` (`asmmain.cpp`) at the call of `parse`.  `main` constructs
the four declarations `bool1`, `outFile`, `lstFile` and `threadCount` (here at
the addresses 0 to 3, the objects of `exampleObjs`) and calls `registerParam`
for the first three only. -/
def driverCmdline : CommandLine :=
  (((CommandLine.new exampleObjs).registerParam 0).registerParam 1).registerParam 2

/-- A registry with one declaration that has a long name only:
`StringParam("", "out", "output file", true, "")` at the address 0. -/
def longOnlyObjs : Ptr → CommandLineParam
  | 0 => StringParam [] "out".toList "output file".toList true []
  | _ => StringParam "x".toList [] [] false []

/-- A fresh parser with the long-name-only declaration registered. -/
def longOnlyCmdline : CommandLine :=
  (CommandLine.new longOnlyObjs).registerParam 0

/-- A registry with one value-needing declaration whose names start with a
dash: `StringParam("-", "-x", "dash names", false, "")` at the address 0. -/
def dashNameObjs : Ptr → CommandLineParam
  | 0 => StringParam "-".toList "-x".toList "dash names".toList false []
  | _ => StringParam "x".toList [] [] false []

/-- A fresh parser with the dash-named declaration registered. -/
def dashNameCmdline : CommandLine :=
  (CommandLine.new dashNameObjs).registerParam 0

/-! # Theorems -/

/-! ## Strings -/

theorem Str.find_of_not_mem (s : CppString) (c : Char) (h : c ∉ s) : Str.find s c = none := by
  induction s with
  | nil => rfl
  | cons x xs ih =>
    simp only [List.mem_cons, not_or] at h
    have hx : ¬ x = c := fun e => h.1 e.symm
    simp [Str.find, hx, ih h.2]

theorem Str.find_append_cons (l r : CppString) (c : Char) (h : c ∉ l) :
    Str.find (l ++ c :: r) c = some l.length := by
  induction l with
  | nil => simp [Str.find]
  | cons x xs ih =>
    simp only [List.mem_cons, not_or] at h
    have hx : ¬ x = c := fun e => h.1 e.symm
    simp [Str.find, hx, ih h.2]

theorem dropWhile_append_of_all (p : Char → Bool) (ws t : List Char)
    (h : ∀ c ∈ ws, p c = true) : (ws ++ t).dropWhile p = t.dropWhile p := by
  induction ws with
  | nil => rfl
  | cons a ws1 ih =>
    have ha : p a = true := h a (by simp)
    rw [List.cons_append, List.dropWhile_cons_of_pos ha]
    exact ih (fun c hc => h c (by simp [hc]))

theorem takeWhile_append_of_all (p : Char → Bool) (ds rest : List Char)
    (h : ∀ c ∈ ds, p c = true) (hr : ∀ c, rest.head? = some c → p c = false) :
    (ds ++ rest).takeWhile p = ds := by
  induction ds with
  | nil =>
    cases rest with
    | nil => rfl
    | cons b r1 =>
      have hb : ¬ (p b = true) := by simp [hr b rfl]
      rw [List.nil_append, List.takeWhile_cons_of_neg hb]
  | cons a ds1 ih =>
    have ha : p a = true := h a (by simp)
    rw [List.cons_append, List.takeWhile_cons_of_pos ha,
      ih (fun c hc => h c (by simp [hc]))]

/-! ## `std::stoi` and `std::to_string` -/

theorem isspace_of_isdigit (c : Char) (h : isdigit c = true) : isspace c = false := by
  by_contra hs
  have hs1 : isspace c = true := by simpa using hs
  simp only [isspace, Bool.or_eq_true, decide_eq_true_eq] at hs1
  rcases hs1 with ((((rfl | rfl) | rfl) | rfl) | rfl) | rfl <;> exact absurd h (by decide)

theorem ne_minus_of_isdigit (c : Char) (h : isdigit c = true) : c ≠ '-' := by
  rintro rfl
  exact absurd h (by decide)

theorem ne_plus_of_isdigit (c : Char) (h : isdigit c = true) : c ≠ '+' := by
  rintro rfl
  exact absurd h (by decide)

theorem digitsValue_append_singleton (ds : List Char) (c : Char) :
    digitsValue (ds ++ [c]) = 10 * digitsValue ds + digitValue c := by
  simp [digitsValue, List.foldl_append]

theorem digitChar_spec (d : Nat) (h : d < 10) :
    isdigit (Nat.digitChar d) = true ∧ digitValue (Nat.digitChar d) = d := by
  interval_cases d <;> decide

/-- With enough fuel `Nat.toDigitsCore 10` puts the decimal digits of `n` before `acc`. -/
theorem toDigitsCore_spec (fuel : Nat) : ∀ (n : Nat) (acc : List Char), n < fuel →
    ∃ ds, Nat.toDigitsCore 10 fuel n acc = ds ++ acc ∧ ds ≠ []
      ∧ (∀ c ∈ ds, isdigit c = true) ∧ digitsValue ds = n := by
  induction fuel with
  | zero => intro n acc h; exact absurd h (Nat.not_lt_zero n)
  | succ fuel ih =>
    intro n acc hn
    have hd := digitChar_spec (n % 10) (Nat.mod_lt n (by decide))
    by_cases h0 : n / 10 = 0
    · refine ⟨[Nat.digitChar (n % 10)], ?_, by simp, ?_, ?_⟩
      · simp [Nat.toDigitsCore, h0]
      · intro c hc
        rw [List.mem_singleton.mp hc]
        exact hd.1
      · have : digitsValue [Nat.digitChar (n % 10)] = digitValue (Nat.digitChar (n % 10)) := by
          simp [digitsValue]
        rw [this, hd.2]
        omega
    · have hlt : n / 10 < fuel := by omega
      obtain ⟨ds, hds, _, hall, hval⟩ := ih (n / 10) (Nat.digitChar (n % 10) :: acc) hlt
      refine ⟨ds ++ [Nat.digitChar (n % 10)], ?_, by simp, ?_, ?_⟩
      · simp [Nat.toDigitsCore, h0, hds]
      · intro c hc
        rcases List.mem_append.mp hc with hc | hc
        · exact hall c hc
        · rw [List.mem_singleton.mp hc]
          exact hd.1
      · rw [digitsValue_append_singleton, hval, hd.2]
        omega

theorem toDigits_spec (n : Nat) :
    Nat.toDigits 10 n ≠ [] ∧ (∀ c ∈ Nat.toDigits 10 n, isdigit c = true)
      ∧ digitsValue (Nat.toDigits 10 n) = n := by
  obtain ⟨ds, hds, hne, hall, hval⟩ := toDigitsCore_spec (n + 1) n [] (Nat.lt_succ_self n)
  have : Nat.toDigits 10 n = ds := by simpa [Nat.toDigits] using hds
  rw [this]
  exact ⟨hne, hall, hval⟩

/-- Leading white space does not change what `stoi` returns. -/
theorem stoi_append_space (ws t : CppString) (hws : ∀ c ∈ ws, isspace c = true) :
    stoi (ws ++ t) = stoi t := by
  simp only [stoi, dropWhile_append_of_all isspace ws t hws]

/-- Without a leading number `stoi` throws. -/
theorem stoi_of_not_hasLeadingNumber (s : CppString) (h : hasLeadingNumber s = false) :
    stoi s = none := by
  have hbody : decimalBody (s.dropWhile isspace)
      = (if (s.dropWhile isspace).head? = some '-' ∨ (s.dropWhile isspace).head? = some '+'
          then (s.dropWhile isspace).drop 1 else s.dropWhile isspace) := rfl
  have htw : List.takeWhile isdigit (decimalBody (s.dropWhile isspace)) = [] := by
    unfold hasLeadingNumber at h
    cases hb : decimalBody (s.dropWhile isspace) with
    | nil => rfl
    | cons b r1 =>
      rw [hb] at h
      have hb1 : ¬ (isdigit b = true) := by simpa using h
      exact List.takeWhile_cons_of_neg hb1
  rw [hbody] at htw
  simp only [stoi, htw, List.isEmpty_nil, if_true]

/-- A run of digits followed by text that does not start with a digit. -/
theorem stoi_digits_append (ds rest : List Char) (hne : ds ≠ [])
    (hall : ∀ c ∈ ds, isdigit c = true)
    (hrest : ∀ c, rest.head? = some c → isdigit c = false) :
    stoi (ds ++ rest)
      = if (digitsValue ds : Int) > INT_MAX then none else some (digitsValue ds : Int) := by
  cases ds with
  | nil => exact absurd rfl hne
  | cons a ds1 =>
    have ha : isdigit a = true := hall a (by simp)
    have hsp : ¬ (isspace a = true) := by simp [isspace_of_isdigit a ha]
    have hm := ne_minus_of_isdigit a ha
    have hp := ne_plus_of_isdigit a ha
    have htw := takeWhile_append_of_all isdigit (a :: ds1) rest hall hrest
    have hnn : ¬ ((digitsValue (a :: ds1) : Int) < INT_MIN) := by
      have : (0 : Int) ≤ (digitsValue (a :: ds1) : Int) := Int.ofNat_nonneg _
      simp only [INT_MIN]
      omega
    rw [List.cons_append] at htw ⊢
    simp only [stoi, List.dropWhile_cons_of_neg hsp, List.head?, Option.some.injEq, hm, hp,
      or_self, if_false, htw, List.isEmpty_cons, Bool.false_eq_true, hnn, false_or]

/-- A sign and a run of digits followed by text that does not start with a digit. -/
theorem stoi_sign_digits_append (sign : Char) (ds rest : List Char)
    (hsign : sign = '-' ∨ sign = '+') (hne : ds ≠ [])
    (hall : ∀ c ∈ ds, isdigit c = true)
    (hrest : ∀ c, rest.head? = some c → isdigit c = false) :
    stoi (sign :: ds ++ rest)
      = if sign = '-' then
          (if -(digitsValue ds : Int) < INT_MIN then none else some (-(digitsValue ds : Int)))
        else
          (if (digitsValue ds : Int) > INT_MAX then none else some (digitsValue ds : Int)) := by
  have htw := takeWhile_append_of_all isdigit ds rest hall hrest
  have hE : ds.isEmpty = false := by cases ds <;> simp_all
  have hpos : (0 : Int) ≤ (digitsValue ds : Int) := Int.ofNat_nonneg _
  have hn1 : ¬ (-(digitsValue ds : Int) > INT_MAX) := by
    simp only [INT_MAX]
    omega
  have hn2 : ¬ ((digitsValue ds : Int) < INT_MIN) := by
    simp only [INT_MIN]
    omega
  rw [List.cons_append]
  rcases hsign with rfl | rfl
  · have hsp : ¬ (isspace '-' = true) := by decide
    simp only [stoi, List.dropWhile_cons_of_neg hsp, List.head?, true_or, if_true,
      List.drop_succ_cons, List.drop_zero, htw, hE, Bool.false_eq_true, if_false, hn1, or_false]
  · have hsp : ¬ (isspace '+' = true) := by decide
    have hpm : ¬ ('+' = '-') := by decide
    simp only [stoi, List.dropWhile_cons_of_neg hsp, List.head?, Option.some.injEq, hpm,
      or_true, if_true, List.drop_succ_cons, List.drop_zero, htw, hE, Bool.false_eq_true,
      if_false, hn2, false_or]

/-- On a decimal text `stoi` returns the number it denotes, if it fits an `int`. -/
theorem stoi_of_isDecimalText (s : CppString) (h : isDecimalText s = true) :
    stoi s = if decimalValue s < INT_MIN ∨ decimalValue s > INT_MAX then none
      else some (decimalValue s) := by
  cases s with
  | nil => simp [isDecimalText, decimalBody] at h
  | cons a s1 =>
    by_cases hsign : a = '-' ∨ a = '+'
    · have hs1 : s1.isEmpty = false ∧ ∀ c ∈ s1, isdigit c = true := by
        rcases hsign with rfl | rfl <;>
          simpa [isDecimalText, decimalBody] using h
      have hne : s1 ≠ [] := by
        intro e
        rw [e] at hs1
        simp at hs1
      have hpos : (0 : Int) ≤ (digitsValue s1 : Int) := Int.ofNat_nonneg _
      have h1 := stoi_sign_digits_append a s1 [] hsign hne hs1.2 (by simp)
      rw [List.append_nil] at h1
      rw [h1]
      rcases hsign with rfl | rfl
      · have hn : ¬ (-(digitsValue s1 : Int) > INT_MAX) := by
          simp only [INT_MAX]
          omega
        simp [decimalValue, decimalBody, hn]
      · have hn : ¬ ((digitsValue s1 : Int) < INT_MIN) := by
          simp only [INT_MIN]
          omega
        have hpm : ¬ ('+' = '-') := by decide
        simp [decimalValue, decimalBody, hn, hpm]
    · have hm : ¬ a = '-' := fun e => hsign (Or.inl e)
      have hp : ¬ a = '+' := fun e => hsign (Or.inr e)
      have hall : ∀ c ∈ a :: s1, isdigit c = true := by
        simpa [isDecimalText, decimalBody, hm, hp] using h
      have hn : ¬ ((digitsValue (a :: s1) : Int) < INT_MIN) := by
        have : (0 : Int) ≤ (digitsValue (a :: s1) : Int) := Int.ofNat_nonneg _
        simp only [INT_MIN]
        omega
      have h1 := stoi_digits_append (a :: s1) [] (by simp) hall (by simp)
      rw [List.append_nil] at h1
      rw [h1]
      simp [decimalValue, decimalBody, hm, hp, hn]

/-- What `std::to_string` writes is a decimal text that denotes the number. -/
theorem to_string_isDecimalText (n : Int) :
    isDecimalText (to_string n) = true ∧ decimalValue (to_string n) = n := by
  obtain ⟨hne, hall, hval⟩ := toDigits_spec n.natAbs
  have hE : (Nat.toDigits 10 n.natAbs).isEmpty = false := by
    cases h : Nat.toDigits 10 n.natAbs <;> simp_all
  by_cases hneg : n < 0
  · simp only [to_string, hneg, if_true, isDecimalText, decimalBody, decimalValue, List.head?,
      true_or, List.drop_succ_cons, List.drop_zero, hE, Bool.not_false, Bool.true_and,
      List.all_eq_true, hval]
    exact ⟨hall, by omega⟩
  · cases hd : Nat.toDigits 10 n.natAbs with
    | nil => exact absurd hd hne
    | cons a ds1 =>
      have ha : isdigit a = true := hall a (by simp [hd])
      have hm := ne_minus_of_isdigit a ha
      have hp := ne_plus_of_isdigit a ha
      rw [hd] at hall hval
      simp only [to_string, hneg, if_false, hd, isDecimalText, decimalBody, decimalValue,
        List.head?, Option.some.injEq, hm, hp, or_self, List.isEmpty_cons, Bool.not_false,
        Bool.true_and, List.all_eq_true, hval]
      exact ⟨hall, by omega⟩

/-- The round trip: `stoi` reads back what `to_string` writes, for every `int`. -/
theorem stoi_to_string (n : Int) (hlo : INT_MIN ≤ n) (hhi : n ≤ INT_MAX) :
    stoi (to_string n) = some n := by
  obtain ⟨h1, h2⟩ := to_string_isDecimalText n
  rw [stoi_of_isDecimalText _ h1, h2]
  simp [not_lt.mpr hlo, not_lt.mpr hhi]

/-- Text after a decimal text, and white space before it, do not change what
`stoi` returns: the number is read from the leading decimal text. -/
theorem stoi_prefix (ws s rest : CppString) (hs : isDecimalText s = true)
    (hws : ∀ c ∈ ws, isspace c = true)
    (hrest : ∀ c, rest.head? = some c → isdigit c = false) :
    stoi (ws ++ s ++ rest) = stoi s := by
  rw [List.append_assoc, stoi_append_space ws (s ++ rest) hws]
  cases s with
  | nil => simp [isDecimalText, decimalBody] at hs
  | cons a s1 =>
    by_cases hsign : a = '-' ∨ a = '+'
    · have hs1 : s1.isEmpty = false ∧ ∀ c ∈ s1, isdigit c = true := by
        rcases hsign with rfl | rfl <;>
          simpa [isDecimalText, decimalBody] using hs
      have hne : s1 ≠ [] := by
        intro e
        rw [e] at hs1
        simp at hs1
      have h1 := stoi_sign_digits_append a s1 rest hsign hne hs1.2 hrest
      have h2 := stoi_sign_digits_append a s1 [] hsign hne hs1.2 (by simp)
      rw [List.append_nil] at h2
      rw [h1, h2]
    · have hm : ¬ a = '-' := fun e => hsign (Or.inl e)
      have hp : ¬ a = '+' := fun e => hsign (Or.inr e)
      have hall : ∀ c ∈ a :: s1, isdigit c = true := by
        simpa [isDecimalText, decimalBody, hm, hp] using hs
      have h1 := stoi_digits_append (a :: s1) rest (by simp) hall hrest
      have h2 := stoi_digits_append (a :: s1) [] (by simp) hall (by simp)
      rw [List.append_nil] at h2
      rw [h1, h2]

/-! ## `setValue`, class by class, and what it never changes -/

theorem CommandLineParam.setValue_string (p : CommandLineParam) (v : CppString)
    (h : p.cls = .StringParam) :
    p.setValue v = (true, { p with strValue := v, _isSet := true }) := by
  simp [CommandLineParam.setValue, h]

theorem CommandLineParam.setValue_bool (p : CommandLineParam) (b : Bool) (s : CppString)
    (hp : p.cls = .BoolParam b) :
    p.setValue s =
      if s = [] ∨ s ∈ CommandLineParam.truthy ∨ s ∈ CommandLineParam.falsy then
        (true, { p with strValue := "true".toList, cls := .BoolParam true, _isSet := true })
      else (false, p) := by
  by_cases he : s = []
  · subst he
    simp [CommandLineParam.setValue, hp]
  · have hE : s.isEmpty = false := by cases s <;> simp_all
    by_cases ht : s ∈ CommandLineParam.truthy
    · simp only [CommandLineParam.setValue, hp, hE, ht, he]
      simp
    · by_cases hf : s ∈ CommandLineParam.falsy
      · simp only [CommandLineParam.setValue, hp, hE, ht, hf, he]
        simp
      · simp only [CommandLineParam.setValue, hp, hE, ht, hf, he]
        simp

theorem CommandLineParam.setValue_int_of_stoi (p : CommandLineParam) (value mn mx : Int)
    (s : CppString) (n : Int) (hp : p.cls = .IntParam value mn mx) (hs : stoi s = some n) :
    p.setValue s = if mn ≠ mx ∧ (n < mn ∨ n > mx) then (false, p)
      else (true, { p with cls := .IntParam n mn mx, _isSet := true }) := by
  simp only [CommandLineParam.setValue, hp, hs]

theorem CommandLineParam.setValue_int_of_stoi_none (p : CommandLineParam) (value mn mx : Int)
    (s : CppString) (hp : p.cls = .IntParam value mn mx) (hs : stoi s = none) :
    p.setValue s = (false, p) := by
  simp only [CommandLineParam.setValue, hp, hs]

theorem CommandLineParam.sameDecl_refl (p : CommandLineParam) : p.sameDecl p :=
  ⟨rfl, rfl, rfl, rfl, rfl, rfl, Iff.rfl, fun _ _ => Iff.rfl, Iff.rfl⟩

theorem CommandLineParam.sameDecl_trans (p q r : CommandLineParam)
    (h1 : p.sameDecl q) (h2 : q.sameDecl r) : p.sameDecl r := by
  obtain ⟨a1, a2, a3, a4, a5, a6, a7, a8, a9⟩ := h1
  obtain ⟨b1, b2, b3, b4, b5, b6, b7, b8, b9⟩ := h2
  exact ⟨a1.trans b1, a2.trans b2, a3.trans b3, a4.trans b4, a5.trans b5, a6.trans b6,
    a7.trans b7, fun mn mx => (a8 mn mx).trans (b8 mn mx), a9.trans b9⟩

theorem CommandLineParam.setValue_sameDecl (p : CommandLineParam) (s : CppString) :
    (p.setValue s).2.sameDecl p := by
  cases hc : p.cls with
  | StringParam =>
    simp [CommandLineParam.setValue, hc, CommandLineParam.sameDecl]
  | BoolParam b =>
    rw [p.setValue_bool b s hc]
    split
    · simp [CommandLineParam.sameDecl, hc]
    · exact p.sameDecl_refl
  | IntParam v mn mx =>
    cases hs : stoi s with
    | none =>
      rw [p.setValue_int_of_stoi_none v mn mx s hc hs]
      exact p.sameDecl_refl
    | some n =>
      rw [p.setValue_int_of_stoi v mn mx s n hc hs]
      split
      · exact p.sameDecl_refl
      · simp only [CommandLineParam.sameDecl, hc, true_and]
        refine ⟨by simp, ?_, by simp⟩
        intro mn1 mx1
        constructor
        · rintro ⟨w, hw⟩
          cases hw
          exact ⟨v, rfl⟩
        · rintro ⟨w, hw⟩
          cases hw
          exact ⟨n, rfl⟩

theorem CommandLineParam.setValue_fail (p : CommandLineParam) (s : CppString)
    (h : (p.setValue s).1 = false) : (p.setValue s).2 = p := by
  cases hc : p.cls with
  | StringParam => simp [CommandLineParam.setValue, hc] at h
  | BoolParam b =>
    rw [p.setValue_bool b s hc] at h ⊢
    split at h
    · simp at h
    · rename_i hn
      rw [if_neg hn]
  | IntParam v mn mx =>
    cases hs : stoi s with
    | none => rw [p.setValue_int_of_stoi_none v mn mx s hc hs]
    | some n =>
      rw [p.setValue_int_of_stoi v mn mx s n hc hs] at h ⊢
      split at h
      · rename_i hn
        rw [if_pos hn]
      · simp at h

theorem CommandLineParam.setValue_mandatory (p : CommandLineParam) (b : Bool) (s : CppString) :
    (p.withMandatory b).setValue s
      = ((p.setValue s).1, (p.setValue s).2.withMandatory b) := by
  have hq : (p.withMandatory b).cls = p.cls := rfl
  cases hc : p.cls with
  | StringParam =>
    rw [hc] at hq
    rw [p.setValue_string s hc, (p.withMandatory b).setValue_string s hq]
    rfl
  | BoolParam v =>
    rw [hc] at hq
    rw [p.setValue_bool v s hc, (p.withMandatory b).setValue_bool v s hq]
    split <;> rfl
  | IntParam v mn mx =>
    rw [hc] at hq
    cases hs : stoi s with
    | none =>
      rw [p.setValue_int_of_stoi_none v mn mx s hc hs,
        (p.withMandatory b).setValue_int_of_stoi_none v mn mx s hq hs]
    | some n =>
      rw [p.setValue_int_of_stoi v mn mx s n hc hs,
        (p.withMandatory b).setValue_int_of_stoi v mn mx s n hq hs]
      split <;> rfl

/-! ## Token classes -/

theorem classify_plain (t : CppString) (hne : t ≠ []) (hd : t.head? ≠ some '-') :
    classify t = .plain := by
  cases t with
  | nil => exact absurd rfl hne
  | cons a t1 =>
    have ha : ¬ a = '-' := by simpa using hd
    cases t1 <;> simp [classify, ha]

theorem classify_long_inline (L v : CppString) (hne : L ≠ []) (hd : L.head? ≠ some '-')
    (he : '=' ∉ L) : classify ('-' :: '-' :: (L ++ '=' :: v)) = .option L v := by
  have hr : ¬ (L ++ '=' :: v = [] ∨ (L ++ '=' :: v).head? = some '-') := by
    cases L with
    | nil => exact absurd rfl hne
    | cons a L1 => simpa using hd
  simp only [classify, if_true, hr, if_false, Str.find_append_cons L v '=' he]
  simp

theorem classify_short_bare (c : Char) :
    classify ['-', c] = .invalid ∨ (c ≠ '-' ∧ classify ['-', c] = .option [c] []) := by
  by_cases hc : c = '-'
  · left
    simp [classify, hc]
  · right
    exact ⟨hc, by simp [classify, hc]⟩

theorem classify_long_bare (name : CppString) (he : '=' ∉ name) :
    classify ('-' :: '-' :: name) = .invalid
    ∨ (name ≠ [] ∧ name.head? ≠ some '-' ∧ classify ('-' :: '-' :: name) = .option name []) := by
  by_cases hr : name = [] ∨ name.head? = some '-'
  · left
    simp [classify, hr]
  · right
    have h1 : name ≠ [] := fun e => hr (Or.inl e)
    have h2 : name.head? ≠ some '-' := fun e => hr (Or.inr e)
    refine ⟨h1, h2, ?_⟩
    simp only [classify, if_true, hr, if_false, Str.find_of_not_mem name '=' he]

theorem classify_dash_ne_plain (b : Char) (rest : CppString) :
    classify ('-' :: b :: rest) ≠ .plain := by
  simp only [classify, if_true]
  by_cases hb : b = '-'
  · by_cases hr : rest = [] ∨ rest.head? = some '-'
    · simp [hb, hr]
    · cases hf : Str.find rest '=' <;> simp [hb, hr, hf]
  · simp [hb]

theorem to_string_plain (n : Int) (hn : 0 ≤ n) : classify (to_string n) = .plain := by
  obtain ⟨hne, hall, _⟩ := toDigits_spec n.natAbs
  have hneg : ¬ n < 0 := not_lt.mpr hn
  simp only [to_string, hneg, if_false]
  apply classify_plain _ hne
  cases hd : Nat.toDigits 10 n.natAbs with
  | nil => exact absurd hd hne
  | cons a ds =>
    have ha : isdigit a = true := hall a (by simp [hd])
    simpa using ne_minus_of_isdigit a ha

/-! ## `pushArg`, case by case -/

theorem CommandLine.addArg_eq (cl : CommandLine) (p : Ptr) (v : CppString) :
    cl.addArg p v = (((cl.objs p).setValue v).1,
      { cl with objs := Function.update cl.objs p ((cl.objs p).setValue v).2 }) := by
  cases h : ((cl.objs p).setValue v).1 <;> simp [CommandLine.addArg, CommandLine.error, h]

theorem CommandLine.addArg_string (cl : CommandLine) (d : Ptr) (v : CppString)
    (hs : (cl.objs d).cls = .StringParam) :
    cl.addArg d v
      = (true, { cl with objs := (Function.update cl.objs d
                   { cl.objs d with strValue := v, _isSet := true }) }) := by
  simp [CommandLine.addArg, CommandLineParam.setValue, hs]

theorem CommandLine.pushArg_long_inline (cl : CommandLine) (L v : CppString)
    (hidle : cl.pendingValueArg = none) (hne : L ≠ []) (hdash : L.head? ≠ some '-')
    (heq : '=' ∉ L) :
    cl.pushArg ('-' :: '-' :: (L ++ '=' :: v)) = cl.dispatch L v := by
  cases L with
  | nil => exact absurd rfl hne
  | cons a L1 =>
    have ha : ¬ a = '-' := by simpa using hdash
    have hf := Str.find_append_cons (a :: L1) v '=' heq
    simp only [List.cons_append] at hf
    simp [CommandLine.pushArg, CommandLine.dispatch, hidle, Str.charAt, Str.substrFrom, Str.substr, ha, hf]

theorem CommandLine.pushArg_short (cl : CommandLine) (c : Char) (v : CppString)
    (hidle : cl.pendingValueArg = none) (hc : c ≠ '-') :
    cl.pushArg ('-' :: c :: v) = cl.dispatch [c] v := by
  cases v with
  | nil =>
    simp [CommandLine.pushArg, CommandLine.dispatch, hidle, Str.charAt, Str.substrFrom,
      Str.substr, hc]
  | cons b v1 =>
    simp [CommandLine.pushArg, CommandLine.dispatch, hidle, Str.charAt, Str.substrFrom,
      Str.substr, hc]

theorem CommandLine.pushArg_plain_pending (cl : CommandLine) (t : CppString) (p : Ptr)
    (hpend : cl.pendingValueArg = some p) (hne : t ≠ []) (hdash : t.head? ≠ some '-') :
    cl.pushArg t = (fun r : Bool × CommandLine => (r.1, { r.2 with pendingValueArg := none }))
      (cl.addArg p t) := by
  cases t with
  | nil => exact absurd rfl hne
  | cons a t1 =>
    have ha : ¬ a = '-' := by simpa using hdash
    simp [CommandLine.pushArg, hpend, Str.charAt, Str.substrFrom, ha]

theorem CommandLine.pushArg_option_pending (cl : CommandLine) (t : CppString) (p : Ptr)
    (hpend : cl.pendingValueArg = some p) (b : Char) :
    cl.pushArg ('-' :: b :: t) = (false, cl) := by
  simp [CommandLine.pushArg, hpend, Str.charAt, CommandLine.error]

/-- `pushArg` in terms of the class of the token. -/
theorem CommandLine.pushArg_eq_classify (cl : CommandLine) (arg : CppString) :
    cl.pushArg arg =
      match cl.pendingValueArg with
      | some pending =>
        (match classify arg with
         | .plain => (fun r : Bool × CommandLine => (r.1, { r.2 with pendingValueArg := none }))
             (cl.addArg pending arg)
         | _ => (false, cl))
      | none =>
        (match classify arg with
         | .invalid => (false, cl)
         | .plain => cl.addSimpleArg arg
         | .option pname pvalue => cl.dispatch pname pvalue) := by
  cases hpend : cl.pendingValueArg with
  | some pending =>
    cases arg with
    | nil => simp [CommandLine.pushArg, classify, hpend, Str.charAt, Str.substrFrom, CommandLine.error]
    | cons a t1 =>
      cases t1 with
      | nil =>
        by_cases ha : a = '-'
        · simp [CommandLine.pushArg, classify, hpend, Str.charAt, Str.substrFrom, CommandLine.error, ha]
        · simp [CommandLine.pushArg, classify, hpend, Str.charAt, Str.substrFrom, CommandLine.error, ha]
      | cons b rest =>
        by_cases ha : a = '-'
        · subst ha
          rw [CommandLine.pushArg_option_pending cl rest pending hpend b]
          have hne := classify_dash_ne_plain b rest
          cases hcl : classify ('-' :: b :: rest) with
          | plain => exact absurd hcl hne
          | invalid => rfl
          | option pname pvalue => rfl
        · simp [CommandLine.pushArg, classify, hpend, Str.charAt, Str.substrFrom, CommandLine.error, ha]
  | none =>
    cases arg with
    | nil => simp [CommandLine.pushArg, classify, hpend, Str.charAt, Str.substrFrom, CommandLine.error]
    | cons a t1 =>
      cases t1 with
      | nil =>
        by_cases ha : a = '-'
        · simp [CommandLine.pushArg, classify, hpend, Str.charAt, Str.substrFrom, CommandLine.error, ha]
        · simp [CommandLine.pushArg, classify, hpend, Str.charAt, Str.substrFrom, CommandLine.error, ha]
      | cons b rest =>
        by_cases ha : a = '-'
        · subst ha
          by_cases hb : b = '-'
          · subst hb
            cases rest with
            | nil => simp [CommandLine.pushArg, classify, hpend, Str.charAt, Str.substrFrom, CommandLine.error]
            | cons c r1 =>
              by_cases hc : c = '-'
              · simp [CommandLine.pushArg, classify, hpend, Str.charAt, Str.substrFrom, CommandLine.error, hc]
              · cases hf : Str.find (c :: r1) '=' with
                | none =>
                  simp [CommandLine.pushArg, classify, hpend, Str.charAt, Str.substrFrom, CommandLine.dispatch, hc, hf]
                | some eqpos =>
                  simp [CommandLine.pushArg, classify, hpend, Str.charAt, Str.substrFrom, Str.substr, CommandLine.dispatch, hc, hf]
          · rw [CommandLine.pushArg_short cl b rest hpend hb]
            simp [classify, hb]
        · simp [CommandLine.pushArg, classify, hpend, Str.charAt, Str.substrFrom, CommandLine.error, ha, CommandLine.addSimpleArg]

/-- In an Idle state a bare option token naming a value-needing declaration is
accepted and makes that declaration the pending one. -/
theorem CommandLine.pushArg_bare_needsValue (cl : CommandLine) (t name : CppString) (d : Ptr)
    (hidle : cl.pendingValueArg = none) (hcl : classify t = .option name [])
    (hf : cl.findParam name = some d) (hn : (cl.objs d).needsValue = true) :
    cl.pushArg t = (true, { cl with pendingValueArg := some d }) := by
  rw [cl.pushArg_eq_classify t]
  simp [hidle, hcl, CommandLine.dispatch, hf, hn]

/-- In an Idle state, an option token whose declaration takes the value `v`
(an inline value for a value-needing declaration, the empty string for a
presence flag) is accepted when `setValue(v)` succeeds. -/
theorem CommandLine.pushArg_option_set (cl : CommandLine) (t name v : CppString) (d : Ptr)
    (hidle : cl.pendingValueArg = none) (hcl : classify t = .option name v)
    (hf : cl.findParam name = some d) (hv : (cl.objs d).needsValue = !v.isEmpty)
    (hset : ((cl.objs d).setValue v).1 = true) :
    cl.pushArg t
      = (true, { cl with objs := Function.update cl.objs d ((cl.objs d).setValue v).2 }) := by
  rw [cl.pushArg_eq_classify t]
  cases he : v.isEmpty <;> simp [hidle, hcl, CommandLine.dispatch, hf, hv, he, cl.addArg_eq d v, hset]

/-- While a declaration is pending, a plain token that `setValue` accepts is
consumed as its value and the parser becomes Idle. -/
theorem CommandLine.pushArg_pending_set (cl : CommandLine) (t : CppString) (d : Ptr)
    (hpend : cl.pendingValueArg = some d) (hcl : classify t = .plain)
    (hset : ((cl.objs d).setValue t).1 = true) :
    cl.pushArg t
      = (true, { cl with objs := Function.update cl.objs d ((cl.objs d).setValue t).2,
                         pendingValueArg := none }) := by
  rw [cl.pushArg_eq_classify t]
  simp [hpend, hcl, cl.addArg_eq d t, hset]

/-- In an Idle state a plain token is appended to the positional list. -/
theorem CommandLine.pushArg_idle_plain (cl : CommandLine) (t : CppString)
    (hidle : cl.pendingValueArg = none) (hcl : classify t = .plain) :
    cl.pushArg t = (true, { cl with simpleArgs := cl.simpleArgs ++ [t] }) := by
  rw [cl.pushArg_eq_classify t]
  simp [hidle, hcl, CommandLine.addSimpleArg]

theorem CommandLine.step_option_set (cl : CommandLine) (t name v : CppString) (d : Ptr)
    (hidle : cl.pendingValueArg = none) (hcl : classify t = .option name v)
    (hf : cl.findParam name = some d) (hv : (cl.objs d).needsValue = !v.isEmpty)
    (hset : ((cl.objs d).setValue v).1 = true) :
    ∃ s, cl.pushArg t = (true, s)
      ∧ s.objs = Function.update cl.objs d ((cl.objs d).setValue v).2
      ∧ s.pendingValueArg = none ∧ s.simpleArgs = cl.simpleArgs ∧ s.params = cl.params :=
  ⟨_, cl.pushArg_option_set t name v d hidle hcl hf hv hset, rfl, hidle, rfl, rfl⟩

theorem CommandLine.step_bare_needsValue (cl : CommandLine) (t name : CppString) (d : Ptr)
    (hidle : cl.pendingValueArg = none) (hcl : classify t = .option name [])
    (hf : cl.findParam name = some d) (hn : (cl.objs d).needsValue = true) :
    ∃ s, cl.pushArg t = (true, s) ∧ s.objs = cl.objs
      ∧ s.pendingValueArg = some d ∧ s.simpleArgs = cl.simpleArgs ∧ s.params = cl.params :=
  ⟨_, cl.pushArg_bare_needsValue t name d hidle hcl hf hn, rfl, rfl, rfl, rfl⟩

theorem CommandLine.step_pending_set (cl : CommandLine) (t : CppString) (d : Ptr)
    (hpend : cl.pendingValueArg = some d) (hcl : classify t = .plain)
    (hset : ((cl.objs d).setValue t).1 = true) :
    ∃ s, cl.pushArg t = (true, s)
      ∧ s.objs = Function.update cl.objs d ((cl.objs d).setValue t).2
      ∧ s.pendingValueArg = none ∧ s.simpleArgs = cl.simpleArgs ∧ s.params = cl.params :=
  ⟨_, cl.pushArg_pending_set t d hpend hcl hset, rfl, rfl, rfl, rfl⟩

theorem CommandLine.step_idle_plain (cl : CommandLine) (t : CppString)
    (hidle : cl.pendingValueArg = none) (hcl : classify t = .plain) :
    ∃ s, cl.pushArg t = (true, s) ∧ s.objs = cl.objs
      ∧ s.pendingValueArg = none ∧ s.simpleArgs = cl.simpleArgs ++ [t]
      ∧ s.params = cl.params :=
  ⟨_, cl.pushArg_idle_plain t hidle hcl, rfl, hidle, rfl, rfl⟩

/-- An accepted token changes the objects only by `setValue` at the declaration
it supplies. -/
theorem CommandLine.pushArg_objs (cl : CommandLine) (t : CppString)
    (hacc : (cl.pushArg t).1 = true) :
    (cl.pushArg t).2.objs =
      match cl.supplied t with
      | some (d1, v) => Function.update cl.objs d1 ((cl.objs d1).setValue v).2
      | none => cl.objs := by
  rw [cl.pushArg_eq_classify t] at hacc ⊢
  unfold CommandLine.supplied
  cases hpend : cl.pendingValueArg with
  | some pending =>
    simp only [hpend] at hacc ⊢
    cases hcl : classify t with
    | plain => simp [cl.addArg_eq pending t]
    | invalid => rfl
    | option pname pvalue => rfl
  | none =>
    simp only [hpend] at hacc ⊢
    cases hcl : classify t with
    | plain => simp [CommandLine.addSimpleArg]
    | invalid => rfl
    | option pname pvalue =>
      simp only [hcl, CommandLine.dispatch] at hacc ⊢
      cases hf : cl.findParam pname with
      | none => rfl
      | some d =>
        simp only [hf] at hacc ⊢
        cases hn : (cl.objs d).needsValue <;> cases he : pvalue.isEmpty
        · simp [hn, he, CommandLine.error] at hacc
        · have hnil : pvalue = [] := by simpa using he
          subst hnil
          simp [hn, cl.addArg_eq d []]
        · simp [hn, he, cl.addArg_eq d pvalue]
        · simp [hn, he]

/-- What `withString` says, member by member. -/
theorem CommandLine.withString_spec (cl : CommandLine) (d : Ptr) (v : CppString) :
    ((cl.withString d v).objs d).getString = v
    ∧ ((cl.withString d v).objs d).isSet = true
    ∧ ((cl.withString d v).objs d).sameDecl (cl.objs d)
    ∧ (cl.withString d v).pendingValueArg = cl.pendingValueArg
    ∧ (cl.withString d v).simpleArgs = cl.simpleArgs
    ∧ (cl.withString d v).params = cl.params
    ∧ (∀ q, q ≠ d → (cl.withString d v).objs q = cl.objs q) := by
  refine ⟨?_, ?_, ?_, rfl, rfl, rfl, ?_⟩
  · simp [CommandLine.withString, CommandLineParam.getString]
  · simp [CommandLine.withString, CommandLineParam.isSet]
  · simp [CommandLine.withString, CommandLineParam.sameDecl]
  · intro q hq
    simp [CommandLine.withString, Function.update_noteq hq]

/-! ## The registry is never changed by parsing -/

theorem CommandLine.sameRegistry_refl (cl : CommandLine) : cl.sameRegistry cl :=
  ⟨rfl, fun q => (cl.objs q).sameDecl_refl⟩

theorem CommandLine.sameRegistry_trans (a b c : CommandLine)
    (h1 : a.sameRegistry b) (h2 : b.sameRegistry c) : a.sameRegistry c :=
  ⟨h1.1.trans h2.1, fun q => (a.objs q).sameDecl_trans _ _ (h1.2 q) (h2.2 q)⟩

theorem CommandLine.addArg_sameRegistry (cl : CommandLine) (p : Ptr) (v : CppString) :
    (cl.addArg p v).2.sameRegistry cl := by
  rw [cl.addArg_eq p v]
  refine ⟨rfl, fun q => ?_⟩
  by_cases hq : q = p
  · subst hq
    simp only [Function.update_same]
    exact (cl.objs q).setValue_sameDecl v
  · simp only [Function.update_noteq hq]
    exact (cl.objs q).sameDecl_refl

theorem CommandLine.dispatch_sameRegistry (cl : CommandLine) (pname pvalue : CppString) :
    (cl.dispatch pname pvalue).2.sameRegistry cl := by
  unfold CommandLine.dispatch
  split
  · exact cl.sameRegistry_refl
  · split
    · split
      · exact ⟨rfl, fun q => (cl.objs q).sameDecl_refl⟩
      · exact cl.addArg_sameRegistry _ _
    · split
      · exact cl.sameRegistry_refl
      · exact cl.addArg_sameRegistry _ _

theorem CommandLine.pushArg_sameRegistry (cl : CommandLine) (t : CppString) :
    (cl.pushArg t).2.sameRegistry cl := by
  rw [cl.pushArg_eq_classify t]
  split
  · rename_i pending _
    split
    · exact ⟨(cl.addArg_sameRegistry pending t).1, (cl.addArg_sameRegistry pending t).2⟩
    · exact cl.sameRegistry_refl
  · split
    · exact cl.sameRegistry_refl
    · exact ⟨rfl, fun q => (cl.objs q).sameDecl_refl⟩
    · exact cl.dispatch_sameRegistry _ _

theorem CommandLine.findParam_of_sameRegistry (a b : CommandLine) (h : a.sameRegistry b)
    (name : CppString) : a.findParam name = b.findParam name := by
  have hobjs : ∀ (ps : List Ptr),
      CommandLine.findParamLoop a.objs name ps = CommandLine.findParamLoop b.objs name ps := by
    intro ps
    induction ps with
    | nil => rfl
    | cons p rest ih =>
      have hs : (a.objs p).sameName name = (b.objs p).sameName name := by
        simp only [CommandLineParam.sameName, (h.2 p).1, (h.2 p).2.1]
      simp only [CommandLine.findParamLoop, hs, ih]
  simp only [CommandLine.findParam, h.1, hobjs]

theorem CommandLine.pushAll_sameRegistry (ts : List CppString) :
    ∀ (cl cl1 : CommandLine), cl.pushAll ts = some cl1 → cl1.sameRegistry cl := by
  induction ts with
  | nil =>
    intro cl cl1 h
    simp only [CommandLine.pushAll, Option.some.injEq] at h
    rw [← h]
    exact cl.sameRegistry_refl
  | cons t ts ih =>
    intro cl cl1 h
    simp only [CommandLine.pushAll] at h
    split at h
    · exact CommandLine.sameRegistry_trans _ _ _ (ih _ _ h) (cl.pushArg_sameRegistry t)
    · exact absurd h (by simp)

theorem CommandLine.findParamLoop_eq_some (objs : Ptr → CommandLineParam) (name : CppString)
    (ps : List Ptr) (d : Ptr) :
    CommandLine.findParamLoop objs name ps = some d ↔
      ∃ pre post, ps = pre ++ d :: post ∧ (∀ q ∈ pre, (objs q).sameName name = false)
        ∧ (objs d).sameName name = true := by
  induction ps with
  | nil => simp [CommandLine.findParamLoop]
  | cons p rest ih =>
    by_cases hp : (objs p).sameName name = true
    · simp only [CommandLine.findParamLoop, hp, if_true, Option.some.injEq]
      constructor
      · rintro rfl
        exact ⟨[], rest, rfl, by simp, hp⟩
      · rintro ⟨pre, post, hps, hpre, _⟩
        cases pre with
        | nil => exact (List.cons.inj hps).1
        | cons a pre1 =>
          have ha : a = p := (List.cons.inj hps).1.symm
          have := hpre a (by simp)
          rw [ha, hp] at this
          exact absurd this (by simp)
    · have hp1 : (objs p).sameName name = false := by simpa using hp
      simp only [CommandLine.findParamLoop, hp1, Bool.false_eq_true, if_false, ih]
      constructor
      · rintro ⟨pre, post, rfl, hpre, hd⟩
        refine ⟨p :: pre, post, rfl, ?_, hd⟩
        intro q hq
        rcases List.mem_cons.mp hq with rfl | hq
        · exact hp1
        · exact hpre q hq
      · rintro ⟨pre, post, hps, hpre, hd⟩
        cases pre with
        | nil =>
          have : p = d := (List.cons.inj hps).1
          rw [this, hd] at hp1
          exact absurd hp1 (by simp)
        | cons a pre1 =>
          exact ⟨pre1, post, (List.cons.inj hps).2, fun q hq => hpre q (by simp [hq]), hd⟩

theorem CommandLine.findParamLoop_eq_none (objs : Ptr → CommandLineParam) (name : CppString)
    (ps : List Ptr) :
    CommandLine.findParamLoop objs name ps = none ↔ ∀ q ∈ ps, (objs q).sameName name = false := by
  induction ps with
  | nil => simp [CommandLine.findParamLoop]
  | cons p rest ih =>
    by_cases hp : (objs p).sameName name = true
    · simp [CommandLine.findParamLoop, hp]
    · have hp1 : (objs p).sameName name = false := by simpa using hp
      simp [CommandLine.findParamLoop, hp1, ih]

/-! ## `parse`, `validate` and the `mandatory` flag -/

theorem CommandLine.pushAll_append (ts us : List CppString) :
    ∀ (cl : CommandLine), cl.pushAll (ts ++ us) = (cl.pushAll ts).bind (fun c => c.pushAll us) := by
  induction ts with
  | nil => intro cl; rfl
  | cons t ts ih =>
    intro cl
    simp only [List.cons_append, CommandLine.pushAll]
    split
    · exact ih _
    · rfl

/-- The loop of `parse` accepts every token and then runs `validate`, or stops at
the first rejected token. -/
theorem CommandLine.parseLoop_eq (ts : List CppString) :
    ∀ (cl : CommandLine), (cl.parseLoop ts).1 =
      match cl.pushAll ts with
      | some cl1 => cl1.validate
      | none => false := by
  induction ts with
  | nil => intro cl; rfl
  | cons t ts ih =>
    intro cl
    simp only [CommandLine.parseLoop, CommandLine.pushAll]
    cases h : (cl.pushArg t).1
    · simp
    · simp [ih]

theorem CommandLine.parseLoop_state (ts : List CppString) :
    ∀ (cl cl1 : CommandLine), cl.pushAll ts = some cl1 → (cl.parseLoop ts).2 = cl1 := by
  induction ts with
  | nil =>
    intro cl cl1 h
    simpa [CommandLine.pushAll, CommandLine.parseLoop] using h
  | cons t ts ih =>
    intro cl cl1 h
    simp only [CommandLine.pushAll] at h
    cases hb : (cl.pushArg t).1
    · simp [hb] at h
    · simp only [hb, if_true] at h
      simp [CommandLine.parseLoop, hb, ih _ _ h]

theorem CommandLine.validate_eq_true (cl : CommandLine) :
    cl.validate = true ↔ (cl.pendingValueArg = none
      ∧ ∀ p ∈ cl.params, (cl.objs p).mandatory = true → (cl.objs p).isSet = true) := by
  unfold CommandLine.validate
  cases hp : cl.pendingValueArg with
  | some d => simp
  | none =>
    by_cases hany : cl.params.any (fun p => (cl.objs p).mandatory && !(cl.objs p).isSet) = true
    · simp only [Option.isSome_none, Bool.false_eq_true, if_false, hany, if_true, true_and,
        false_iff]
      intro hall
      obtain ⟨p, hp1, hp2⟩ := List.any_eq_true.mp hany
      simp only [Bool.and_eq_true, Bool.not_eq_true'] at hp2
      have := hall p hp1 hp2.1
      rw [hp2.2] at this
      exact absurd this (by simp)
    · simp only [Option.isSome_none, Bool.false_eq_true, if_false, hany, true_and, true_iff]
      intro p hp1 hm
      by_contra hs
      apply hany
      exact List.any_eq_true.mpr ⟨p, hp1, by simp [hm, hs]⟩

theorem CommandLine.findParam_withMandatory (cl : CommandLine) (m : Ptr → Bool)
    (name : CppString) : (cl.withMandatory m).findParam name = cl.findParam name := by
  have h : ∀ ps : List Ptr,
      CommandLine.findParamLoop (cl.withMandatory m).objs name ps
        = CommandLine.findParamLoop cl.objs name ps := by
    intro ps
    induction ps with
    | nil => rfl
    | cons p rest ih =>
      simp only [CommandLine.findParamLoop, ih]
      rfl
  exact h cl.params

theorem CommandLine.addArg_withMandatory (cl : CommandLine) (m : Ptr → Bool) (p : Ptr)
    (v : CppString) :
    (cl.withMandatory m).addArg p v = ((cl.addArg p v).1, (cl.addArg p v).2.withMandatory m) := by
  rw [cl.addArg_eq p v, (cl.withMandatory m).addArg_eq p v]
  have hset := (cl.objs p).setValue_mandatory (m p) v
  have hobj : (cl.withMandatory m).objs p = (cl.objs p).withMandatory (m p) := rfl
  rw [hobj, hset]
  simp only [CommandLine.withMandatory, Prod.mk.injEq, true_and]
  congr 1
  funext q
  by_cases hq : q = p
  · subst hq
    simp
  · simp [Function.update_noteq hq]

theorem CommandLine.dispatch_withMandatory (cl : CommandLine) (m : Ptr → Bool)
    (pname pvalue : CppString) :
    (cl.withMandatory m).dispatch pname pvalue
      = ((cl.dispatch pname pvalue).1, (cl.dispatch pname pvalue).2.withMandatory m) := by
  simp only [CommandLine.dispatch, cl.findParam_withMandatory m pname]
  cases hf : cl.findParam pname with
  | none => rfl
  | some d =>
    have hn : ((cl.withMandatory m).objs d).needsValue = (cl.objs d).needsValue := rfl
    simp only [hn, cl.addArg_withMandatory m d pvalue]
    split
    · split <;> rfl
    · split <;> rfl

/-- The outcome and the effect of `pushArg` do not depend on any `mandatory` flag. -/
theorem CommandLine.pushArg_withMandatory (cl : CommandLine) (m : Ptr → Bool) (t : CppString) :
    (cl.withMandatory m).pushArg t = ((cl.pushArg t).1, (cl.pushArg t).2.withMandatory m) := by
  rw [cl.pushArg_eq_classify t, (cl.withMandatory m).pushArg_eq_classify t]
  have hp : (cl.withMandatory m).pendingValueArg = cl.pendingValueArg := rfl
  rw [hp]
  cases cl.pendingValueArg with
  | some pending =>
    cases classify t with
    | plain => simp only [cl.addArg_withMandatory m pending t]; rfl
    | invalid => rfl
    | option pname pvalue => rfl
  | none =>
    cases classify t with
    | plain => rfl
    | invalid => rfl
    | option pname pvalue => exact cl.dispatch_withMandatory m pname pvalue

theorem CommandLine.pushAll_withMandatory (m : Ptr → Bool) (ts : List CppString) :
    ∀ cl : CommandLine,
      (cl.withMandatory m).pushAll ts = (cl.pushAll ts).map (CommandLine.withMandatory m) := by
  induction ts with
  | nil => intro cl; rfl
  | cons t ts ih =>
    intro cl
    simp only [CommandLine.pushAll, cl.pushArg_withMandatory m t]
    split
    · exact ih _
    · rfl

/-- After every token was accepted, a String declaration holds the raw value of
its last occurrence, and is untouched when it never occurred. -/
theorem CommandLine.lastSupplied_spec (ts : List CppString) :
    ∀ (cl cl1 : CommandLine) (d : Ptr), (cl.objs d).cls = .StringParam →
      cl.pushAll ts = some cl1 →
      match cl.lastSupplied d ts with
      | some v => (cl1.objs d).getString = v ∧ (cl1.objs d).isSet = true
      | none => cl1.objs d = cl.objs d := by
  induction ts with
  | nil =>
    intro cl cl1 d _ h
    simp only [CommandLine.pushAll, Option.some.injEq] at h
    simp [CommandLine.lastSupplied, h]
  | cons t ts ih =>
    intro cl cl1 d hd h
    simp only [CommandLine.pushAll] at h
    cases hacc : (cl.pushArg t).1
    · simp [hacc] at h
    · simp only [hacc, if_true] at h
      have hreg := cl.pushArg_sameRegistry t
      have hd1 : ((cl.pushArg t).2.objs d).cls = .StringParam := (hreg.2 d).2.2.2.2.2.2.1.mpr hd
      have hrec := ih (cl.pushArg t).2 cl1 d hd1 h
      have hobjs := cl.pushArg_objs t hacc
      simp only [CommandLine.lastSupplied]
      cases hl : CommandLine.lastSupplied (cl.pushArg t).2 d ts with
      | some v =>
        rw [hl] at hrec
        exact hrec
      | none =>
        rw [hl] at hrec
        simp only at hrec ⊢
        rw [hrec, hobjs]
        cases hs : cl.supplied t with
        | none => rfl
        | some dv =>
          obtain ⟨d1, v⟩ := dv
          by_cases hdd : d1 = d
          · subst hdd
            simp [(cl.objs d1).setValue_string v hd, CommandLineParam.getString,
              CommandLineParam.isSet]
          · have hdd1 : ¬ d = d1 := fun e => hdd e.symm
            simp [hdd, Function.update_noteq hdd1]

/-! # Properties of the parser -/

/-- C1: the three spellings of a value-carrying option are equivalent.  When the
short name `c` and the long name `L` both resolve to the same String declaration
`d`, then from an Idle state the token `--L=v`, the token `-cv` and the two tokens
`-c`, `v` are all accepted and all end in the same state: `d` holds `v` and is
set, nothing is pending, and everything else is as before. -/
theorem three_spellings_equivalent (cl : CommandLine) (c : Char) (L v : CppString) (d : Ptr)
    (hc : c ≠ '-') (hL : L ≠ []) (hLd : L.head? ≠ some '-') (hLe : '=' ∉ L)
    (hfc : cl.findParam [c] = some d) (hfL : cl.findParam L = some d)
    (hd : IsStringParam (cl.objs d)) (hidle : cl.pendingValueArg = none)
    (hv : v ≠ []) (hvd : v.head? ≠ some '-') :
    cl.pushArg ("--".toList ++ L ++ "=".toList ++ v) = (true, cl.withString d v)
    ∧ cl.pushArg ("-".toList ++ [c] ++ v) = (true, cl.withString d v)
    ∧ (cl.pushArg ("-".toList ++ [c])).1 = true
    ∧ (cl.pushArg ("-".toList ++ [c])).2.pushArg v = (true, cl.withString d v)
    ∧ ((cl.withString d v).objs d).getString = v
    ∧ ((cl.withString d v).objs d).isSet = true
    ∧ (cl.withString d v).pendingValueArg = none
    ∧ (cl.withString d v).simpleArgs = cl.simpleArgs
    ∧ (cl.withString d v).params = cl.params
    ∧ (∀ q, q ≠ d → (cl.withString d v).objs q = cl.objs q) := by
  obtain ⟨hcls, hneeds⟩ := hd
  have hvE : v.isEmpty = false := by cases v <;> simp_all
  have h1 : cl.pushArg ("--".toList ++ L ++ "=".toList ++ v) = (true, cl.withString d v) := by
    have := cl.pushArg_long_inline L v hidle hL hLd hLe
    simp only [String.toList, List.cons_append, List.nil_append, List.append_assoc] at this ⊢
    rw [this]
    simp [CommandLine.dispatch, hfL, hneeds, hvE, CommandLine.addArg_string, hcls,
      CommandLine.withString]
  have h2 : cl.pushArg ("-".toList ++ [c] ++ v) = (true, cl.withString d v) := by
    have := cl.pushArg_short c v hidle hc
    simp only [String.toList, List.cons_append, List.nil_append, List.append_assoc] at this ⊢
    rw [this]
    simp [CommandLine.dispatch, hfc, hneeds, hvE, CommandLine.addArg_string, hcls,
      CommandLine.withString]
  have h3 : cl.pushArg ("-".toList ++ [c]) = (true, { cl with pendingValueArg := some d }) := by
    have := cl.pushArg_short c [] hidle hc
    simp only [String.toList, List.cons_append, List.nil_append, List.append_assoc] at this ⊢
    rw [this]
    simp [CommandLine.dispatch, hfc, hneeds]
  refine ⟨h1, h2, by rw [h3], ?_, ?_, ?_, ?_, ?_, ?_, ?_⟩
  · rw [h3]
    rw [CommandLine.pushArg_plain_pending _ v d rfl hv hvd]
    simp [CommandLine.addArg_string, hcls, CommandLine.withString, hidle]
  · simp [CommandLine.withString, CommandLineParam.getString]
  · simp [CommandLine.withString, CommandLineParam.isSet]
  · simp [CommandLine.withString, hidle]
  · simp [CommandLine.withString]
  · simp [CommandLine.withString]
  · intro q hq
    simp [CommandLine.withString, Function.update, hq]

/-- C1 at the documented instance: `--out=foo.bin`, `-ofoo.bin` and `-o foo.bin`. -/
theorem three_spellings_equivalent_witness :
    exampleCmdline.pushArg "--out=foo.bin".toList
        = (true, exampleCmdline.withString 1 "foo.bin".toList)
    ∧ exampleCmdline.pushArg "-ofoo.bin".toList
        = (true, exampleCmdline.withString 1 "foo.bin".toList)
    ∧ (exampleCmdline.pushArg "-o".toList).1 = true
    ∧ (exampleCmdline.pushArg "-o".toList).2.pushArg "foo.bin".toList
        = (true, exampleCmdline.withString 1 "foo.bin".toList)
    ∧ ((exampleCmdline.withString 1 "foo.bin".toList).objs 1).getString = "foo.bin".toList :=
  have h := three_spellings_equivalent exampleCmdline 'o' "out".toList "foo.bin".toList 1
    (by decide) (by decide) (by decide) (by decide) (by decide) (by decide)
    ⟨by decide, by decide⟩ (by decide) (by decide) (by decide)
  ⟨h.1, h.2.1, h.2.2.1, h.2.2.2.1, h.2.2.2.2.1⟩

/-- C2: the documented example, for every instance of its shape.  With the
registry verbose / out (mandatory) / lst / threads (default 1, range [1,16]),
every non-empty output name `x`, every `n` from 1 to 16 written in decimal and
every non-empty positional `f` not starting with `-`, parsing
`[program, -v, --out=x, -j, n, f]` returns true and leaves verbose true and set,
out = `x` and set, threads = `n` and set, lst not set, and the positionals `[f]`. -/
theorem example_parse (prog x f : CppString) (n : Int) (hx : x ≠ []) (hn1 : 1 ≤ n)
    (hn16 : n ≤ 16) (hf : f ≠ []) (hfd : f.head? ≠ some '-') :
    (exampleCmdline.parse
        [prog, "-v".toList, "--out=".toList ++ x, "-j".toList, to_string n, f]).1 = true
    ∧ ((exampleCmdline.parse
        [prog, "-v".toList, "--out=".toList ++ x, "-j".toList, to_string n, f]).2.objs 0).getBool
        = true
    ∧ ((exampleCmdline.parse
        [prog, "-v".toList, "--out=".toList ++ x, "-j".toList, to_string n, f]).2.objs 0).isSet
        = true
    ∧ ((exampleCmdline.parse
        [prog, "-v".toList, "--out=".toList ++ x, "-j".toList, to_string n, f]).2.objs 1).getString
        = x
    ∧ ((exampleCmdline.parse
        [prog, "-v".toList, "--out=".toList ++ x, "-j".toList, to_string n, f]).2.objs 1).isSet
        = true
    ∧ ((exampleCmdline.parse
        [prog, "-v".toList, "--out=".toList ++ x, "-j".toList, to_string n, f]).2.objs 3).getInt
        = n
    ∧ ((exampleCmdline.parse
        [prog, "-v".toList, "--out=".toList ++ x, "-j".toList, to_string n, f]).2.objs 3).isSet
        = true
    ∧ ((exampleCmdline.parse
        [prog, "-v".toList, "--out=".toList ++ x, "-j".toList, to_string n, f]).2.objs 2).isSet
        = false
    ∧ (exampleCmdline.parse
        [prog, "-v".toList, "--out=".toList ++ x, "-j".toList, to_string n, f]).2.simpleArgs
        = [f]
    ∧ (exampleCmdline.parse
        [prog, "-v".toList, "--out=".toList ++ x, "-j".toList, to_string n, f]).2.pendingValueArg
        = none := by
  have hxE : x.isEmpty = false := by cases x <;> simp_all
  -- token 1: the flag
  obtain ⟨s1, e1, o1, p1, a1, g1⟩ := exampleCmdline.step_option_set "-v".toList "v".toList []
    0 (by decide) (by decide) (by decide) (by decide) (by decide)
  have r1 : s1.sameRegistry exampleCmdline := by
    have := exampleCmdline.pushArg_sameRegistry "-v".toList
    rwa [e1] at this
  have o1q : ∀ q, q ≠ 0 → s1.objs q = exampleObjs q := by
    intro q hq
    rw [o1, Function.update_noteq hq]
    rfl
  have b1 : (s1.objs 0).getBool = true ∧ (s1.objs 0).isSet = true := by
    rw [o1, Function.update_same]
    decide
  -- token 2: the output name
  have tok2 : "--out=".toList ++ x = '-' :: '-' :: ("out".toList ++ '=' :: x) := rfl
  obtain ⟨s2, e2, o2, p2, a2, g2⟩ := s1.step_option_set ("--out=".toList ++ x) "out".toList x 1
    p1 (by rw [tok2]; exact classify_long_inline _ _ (by decide) (by decide) (by decide))
    (by rw [CommandLine.findParam_of_sameRegistry s1 _ r1]; decide)
    (by rw [o1q 1 (by decide), hxE]; rfl)
    (by rw [o1q 1 (by decide)]; rfl)
  rw [o1q 1 (by decide), CommandLineParam.setValue_string (exampleObjs 1) x rfl] at o2
  have r2 : s2.sameRegistry exampleCmdline := by
    have := s1.pushArg_sameRegistry ("--out=".toList ++ x)
    rw [e2] at this
    exact CommandLine.sameRegistry_trans _ _ _ this r1
  have o2q : ∀ q, q ≠ 1 → s2.objs q = s1.objs q := by
    intro q hq
    rw [o2, Function.update_noteq hq]
  have b2 : (s2.objs 1).getString = x ∧ (s2.objs 1).isSet = true := by
    rw [o2, Function.update_same]
    exact ⟨rfl, rfl⟩
  -- token 3: the thread option, which becomes pending
  obtain ⟨s3, e3, o3, p3, a3, g3⟩ := s2.step_bare_needsValue "-j".toList "j".toList 3 p2
    (by decide) (by rw [CommandLine.findParam_of_sameRegistry s2 _ r2]; decide)
    (by rw [o2q 3 (by decide), o1q 3 (by decide)]; rfl)
  -- token 4: the number
  have hstoi : stoi (to_string n) = some n :=
    stoi_to_string n (by simp only [INT_MIN]; omega) (by simp only [INT_MAX]; omega)
  have hobj3 : s3.objs 3 = exampleObjs 3 := by
    rw [o3, o2q 3 (by decide), o1q 3 (by decide)]
  have hset4 : (exampleObjs 3).setValue (to_string n)
      = (true, { exampleObjs 3 with cls := .IntParam n 1 16, _isSet := true }) := by
    rw [CommandLineParam.setValue_int_of_stoi (exampleObjs 3) 1 1 16 (to_string n) n rfl hstoi]
    have : ¬ ((1 : Int) ≠ 16 ∧ (n < 1 ∨ n > 16)) := by omega
    rw [if_neg this]
  obtain ⟨s4, e4, o4, p4, a4, g4⟩ := s3.step_pending_set (to_string n) 3 p3
    (to_string_plain n (by omega)) (by rw [hobj3, hset4])
  rw [hobj3, hset4] at o4
  have o4q : ∀ q, q ≠ 3 → s4.objs q = s3.objs q := by
    intro q hq
    rw [o4, Function.update_noteq hq]
  have b4 : (s4.objs 3).getInt = n ∧ (s4.objs 3).isSet = true := by
    rw [o4, Function.update_same]
    exact ⟨rfl, rfl⟩
  -- token 5: the positional
  obtain ⟨s5, e5, o5, p5, a5, g5⟩ := s4.step_idle_plain f p4 (classify_plain f hf hfd)
  have hargs : s5.simpleArgs = [f] := by
    rw [a5, a4, a3, a2, a1]
    rfl
  have hparams : s5.params = [0, 1, 2, 3] := by
    rw [g5, g4, g3, g2, g1]
    rfl
  have f0 : s5.objs 0 = s1.objs 0 := by
    rw [o5, o4q 0 (by decide), o3, o2q 0 (by decide)]
  have f1 : s5.objs 1 = s2.objs 1 := by
    rw [o5, o4q 1 (by decide), o3]
  have f2 : s5.objs 2 = exampleObjs 2 := by
    rw [o5, o4q 2 (by decide), o3, o2q 2 (by decide), o1q 2 (by decide)]
  have f3 : s5.objs 3 = s4.objs 3 := by rw [o5]
  have hval : s5.validate = true := by
    rw [s5.validate_eq_true]
    refine ⟨p5, ?_⟩
    intro p hp hm
    rw [hparams] at hp
    simp only [List.mem_cons, List.mem_singleton, List.not_mem_nil, or_false] at hp
    rcases hp with rfl | rfl | rfl | rfl
    · rw [f0]; exact b1.2
    · rw [f1]; exact b2.2
    · rw [f2] at hm; exact absurd hm (by decide)
    · rw [f3]; exact b4.2
  have hparse : exampleCmdline.parse
      [prog, "-v".toList, "--out=".toList ++ x, "-j".toList, to_string n, f] = (true, s5) := by
    simp only [CommandLine.parse, List.drop_succ_cons, List.drop_zero, CommandLine.parseLoop,
      e1, e2, e3, e4, e5, hval, Bool.not_true, Bool.false_eq_true, if_false]
  rw [hparse]
  refine ⟨rfl, ?_, ?_, ?_, ?_, ?_, ?_, ?_, hargs, p5⟩
  · show (s5.objs 0).getBool = true
    rw [f0]; exact b1.1
  · show (s5.objs 0).isSet = true
    rw [f0]; exact b1.2
  · show (s5.objs 1).getString = x
    rw [f1]; exact b2.1
  · show (s5.objs 1).isSet = true
    rw [f1]; exact b2.2
  · show (s5.objs 3).getInt = n
    rw [f3]; exact b4.1
  · show (s5.objs 3).isSet = true
    rw [f3]; exact b4.2
  · show (s5.objs 2).isSet = false
    rw [f2]; rfl

/-- C2 at the documented input `-v --out=a.out -j 4 input.s`. -/
theorem example_parse_witness :
    (exampleCmdline.parse ["asm".toList, "-v".toList, "--out=".toList ++ "a.out".toList,
        "-j".toList, to_string 4, "input.s".toList]).1 = true
    ∧ ((exampleCmdline.parse ["asm".toList, "-v".toList, "--out=".toList ++ "a.out".toList,
        "-j".toList, to_string 4, "input.s".toList]).2.objs 3).getInt = 4
    ∧ (exampleCmdline.parse ["asm".toList, "-v".toList, "--out=".toList ++ "a.out".toList,
        "-j".toList, to_string 4, "input.s".toList]).2.simpleArgs = ["input.s".toList] :=
  have h := example_parse "asm".toList "a.out".toList "input.s".toList 4 (by decide)
    (by decide) (by decide) (by decide) (by decide)
  ⟨h.1, h.2.2.2.2.2.1, h.2.2.2.2.2.2.2.2.1⟩

/-- C3: `findParam(name)` returns the first declaration in registration order
whose short or long name equals `name` (so of two declarations sharing a name the
earlier one), returns null exactly when no registered declaration has that name,
and `registerParam` appends to the registry without any check. -/
theorem findParam_first_match_registerParam_appends (cl : CommandLine) (name : CppString) :
    (∀ p : CommandLineParam, p.sameName name = true ↔ (p.longName = name ∨ p.shortName = name))
    ∧ (∀ d, cl.findParam name = some d ↔
        ∃ pre post, cl.params = pre ++ d :: post
          ∧ (∀ q ∈ pre, (cl.objs q).sameName name = false)
          ∧ (cl.objs d).sameName name = true)
    ∧ (cl.findParam name = none ↔ ∀ q ∈ cl.params, (cl.objs q).sameName name = false)
    ∧ (∀ pre mid post a b, cl.params = pre ++ a :: mid ++ b :: post →
        (∀ q ∈ pre, (cl.objs q).sameName name = false) →
        (cl.objs a).sameName name = true → (cl.objs b).sameName name = true →
        cl.findParam name = some a)
    ∧ (∀ p, (cl.registerParam p).params = cl.params ++ [p]
        ∧ (cl.registerParam p).simpleArgs = cl.simpleArgs
        ∧ (cl.registerParam p).pendingValueArg = cl.pendingValueArg
        ∧ (cl.registerParam p).objs = cl.objs) := by
  refine ⟨?_, ?_, ?_, ?_, ?_⟩
  · intro p
    simp [CommandLineParam.sameName]
  · intro d
    exact CommandLine.findParamLoop_eq_some cl.objs name cl.params d
  · exact CommandLine.findParamLoop_eq_none cl.objs name cl.params
  · intro pre mid post a b hps hpre ha _
    exact (CommandLine.findParamLoop_eq_some cl.objs name cl.params a).mpr
      ⟨pre, mid ++ b :: post, by simpa using hps, hpre, ha⟩
  · intro p
    simp [CommandLine.registerParam]

/-- C4: `parse` returns true exactly when every token after `argv[0]` is accepted
by `pushArg` in order, the parser ends with nothing pending, and every mandatory
declaration is set.  So a successful parse leaves every mandatory declaration
set, and `pushArg` never looks at a `mandatory` flag: its outcome and effect on
each token are the same whatever the flags are. -/
theorem parse_true_iff (cl : CommandLine) (argv : List CppString) :
    ((cl.parse argv).1 = true ↔
      ∃ cl1, cl.pushAll (argv.drop 1) = some cl1 ∧ cl1.pendingValueArg = none
        ∧ ∀ p ∈ cl1.params, (cl1.objs p).mandatory = true → (cl1.objs p).isSet = true)
    ∧ ((cl.parse argv).1 = true →
        ∀ p ∈ cl.params, ((cl.parse argv).2.objs p).mandatory = true →
          ((cl.parse argv).2.objs p).isSet = true)
    ∧ (∀ cl1, cl.pushAll (argv.drop 1) = some cl1 →
        cl1.params = cl.params ∧ ∀ p, (cl1.objs p).mandatory = (cl.objs p).mandatory)
    ∧ (∀ (m : Ptr → Bool) (c : CommandLine) (t : CppString),
        (c.withMandatory m).pushArg t = ((c.pushArg t).1, (c.pushArg t).2.withMandatory m))
    ∧ (∀ (m : Ptr → Bool),
        (cl.withMandatory m).pushAll (argv.drop 1)
          = (cl.pushAll (argv.drop 1)).map (CommandLine.withMandatory m)) := by
  have hiff : (cl.parse argv).1 = true ↔
      ∃ cl1, cl.pushAll (argv.drop 1) = some cl1 ∧ cl1.pendingValueArg = none
        ∧ ∀ p ∈ cl1.params, (cl1.objs p).mandatory = true → (cl1.objs p).isSet = true := by
    unfold CommandLine.parse
    rw [CommandLine.parseLoop_eq (argv.drop 1) cl]
    cases h : cl.pushAll (argv.drop 1) with
    | none => simp
    | some cl1 =>
      simp only [Option.some.injEq, exists_eq_left']
      exact cl1.validate_eq_true
  refine ⟨hiff, ?_, ?_, ?_, ?_⟩
  · intro hok p hp hm
    obtain ⟨cl1, hall, _, hset⟩ := hiff.mp hok
    have hst : (cl.parse argv).2 = cl1 := CommandLine.parseLoop_state (argv.drop 1) cl cl1 hall
    have hreg := CommandLine.pushAll_sameRegistry (argv.drop 1) cl cl1 hall
    rw [hst] at hm ⊢
    exact hset p (by rw [hreg.1]; exact hp) hm
  · intro cl1 hall
    have hreg := CommandLine.pushAll_sameRegistry (argv.drop 1) cl cl1 hall
    exact ⟨hreg.1, fun p => (hreg.2 p).2.2.1⟩
  · intro m c t
    exact c.pushArg_withMandatory m t
  · intro m
    exact CommandLine.pushAll_withMandatory m (argv.drop 1) cl

/-- C5 as stated fails.  In the registry holding only `StringParam("", "out", ...)`
the name of the bare long-form token `--` (the empty `L`) is resolved by
`findParam` to the value-needing `out`, nothing comes before it and the parser
is Idle, and `pushArg` does not accept the token: it is rejected as an invalid
argument and `out` does not become pending.  Likewise with
`StringParam("-", "-x", ...)`: the short name `-` and the long name `-x` are
resolved, and the bare tokens `--` and `---x` are rejected.  `parse` still
returns false each time. -/
theorem dangling_odd_name_is_rejected :
    "--".toList = '-' :: '-' :: ([] : CppString)
    ∧ longOnlyCmdline.findParam [] = some 0
    ∧ (longOnlyCmdline.objs 0).needsValue = true
    ∧ longOnlyCmdline.pushAll [] = some longOnlyCmdline
    ∧ longOnlyCmdline.pendingValueArg = none
    ∧ (longOnlyCmdline.pushArg "--".toList).1 = false
    ∧ (longOnlyCmdline.pushArg "--".toList).2.pendingValueArg = none
    ∧ (longOnlyCmdline.parse ["asm".toList, "--".toList]).1 = false
    ∧ dashNameCmdline.findParam ['-'] = some 0
    ∧ dashNameCmdline.findParam "-x".toList = some 0
    ∧ (dashNameCmdline.objs 0).needsValue = true
    ∧ dashNameCmdline.pendingValueArg = none
    ∧ (dashNameCmdline.pushArg ['-', '-']).1 = false
    ∧ (dashNameCmdline.pushArg ['-', '-']).2.pendingValueArg = none
    ∧ (dashNameCmdline.pushArg ("--".toList ++ "-x".toList)).1 = false
    ∧ (dashNameCmdline.pushArg ("--".toList ++ "-x".toList)).2.pendingValueArg = none
    ∧ (dashNameCmdline.parse ["asm".toList, "--".toList ++ "-x".toList]).1 = false := by
  refine ⟨rfl, by decide, by decide, rfl, by decide, by decide, by decide, by decide, by decide,
    by decide, by decide, by decide, by decide, by decide, by decide, by decide, by decide⟩

/-- C5 as amended: a value-needing option as the last token always makes `parse`
fail.  When the last token is a bare option name (`-c`, or `--L` without `=`)
that `findParam` resolves to a declaration needing a value, `parse` returns
false.  When the tokens before it are all accepted and leave the parser Idle
and the name is well formed (`c` is not `-`; `L` is non-empty and does not
start with `-`), the last token itself is accepted by `pushArg`, it becomes the
pending value holder, and it is `validate` that fails; when the name is empty
or starts with `-`, the token is rejected by `pushArg` and nothing changes. -/
theorem dangling_value_option_fails (cl : CommandLine) (prog : CppString)
    (pre : List CppString) (t name : CppString) (d : Ptr)
    (hbare : (∃ c, t = ['-', c] ∧ name = [c]) ∨ (t = '-' :: '-' :: name ∧ '=' ∉ name))
    (hf : cl.findParam name = some d) (hn : (cl.objs d).needsValue = true) :
    (cl.parse (prog :: (pre ++ [t]))).1 = false
    ∧ (∀ cl1, cl.pushAll pre = some cl1 → cl1.pendingValueArg = none →
        name ≠ [] → name.head? ≠ some '-' →
        cl1.pushArg t = (true, { cl1 with pendingValueArg := some d })
        ∧ cl.pushAll (pre ++ [t]) = some { cl1 with pendingValueArg := some d }
        ∧ CommandLine.validate { cl1 with pendingValueArg := some d } = false
        ∧ cl.parse (prog :: (pre ++ [t])) = (false, { cl1 with pendingValueArg := some d }))
    ∧ (∀ cl1, cl.pushAll pre = some cl1 → cl1.pendingValueArg = none →
        (name = [] ∨ name.head? = some '-') → cl1.pushArg t = (false, cl1)) := by
  have hclass : classify t = .invalid
      ∨ (name ≠ [] ∧ name.head? ≠ some '-' ∧ classify t = .option name []) := by
    rcases hbare with ⟨c, rfl, rfl⟩ | ⟨rfl, he⟩
    · rcases classify_short_bare c with h | ⟨hc, h⟩
      · exact Or.inl h
      · exact Or.inr ⟨by simp, by simpa using hc, h⟩
    · exact classify_long_bare name he
  have hshape : ∃ b rest, t = '-' :: b :: rest := by
    rcases hbare with ⟨c, rfl, _⟩ | ⟨rfl, _⟩
    · exact ⟨c, [], rfl⟩
    · exact ⟨'-', name, rfl⟩
  have hstep : ∀ cl1, cl.pushAll pre = some cl1 →
      (cl1.pushArg t).1 = false
      ∨ (cl1.pendingValueArg = none ∧ name ≠ [] ∧ name.head? ≠ some '-'
          ∧ cl1.pushArg t = (true, { cl1 with pendingValueArg := some d })) := by
    intro cl1 hall
    have hreg := CommandLine.pushAll_sameRegistry pre cl cl1 hall
    have hf1 : cl1.findParam name = some d := by
      rw [CommandLine.findParam_of_sameRegistry cl1 cl hreg name, hf]
    have hn1 : (cl1.objs d).needsValue = true := by
      rw [(hreg.2 d).2.2.2.1, hn]
    cases hp : cl1.pendingValueArg with
    | some p =>
      obtain ⟨b, rest, rfl⟩ := hshape
      left
      rw [cl1.pushArg_option_pending rest p hp b]
    | none =>
      rcases hclass with hinv | ⟨h1, h2, hopt⟩
      · left
        rw [cl1.pushArg_eq_classify t]
        simp [hp, hinv]
      · right
        exact ⟨rfl, h1, h2, cl1.pushArg_bare_needsValue t name d hp hopt hf1 hn1⟩
  have hparse : cl.parse (prog :: (pre ++ [t])) = cl.parseLoop (pre ++ [t]) := rfl
  refine ⟨?_, ?_, ?_⟩
  · rw [hparse, CommandLine.parseLoop_eq (pre ++ [t]) cl, CommandLine.pushAll_append pre [t] cl]
    cases hall : cl.pushAll pre with
    | none => rfl
    | some cl1 =>
      simp only [Option.some_bind, CommandLine.pushAll]
      rcases hstep cl1 hall with hrej | ⟨_, _, _, hacc⟩
      · simp [hrej]
      · simp [hacc, CommandLine.validate]
  · intro cl1 hall hidle hne hdash
    rcases hstep cl1 hall with hrej | ⟨_, _, _, hacc⟩
    · exfalso
      rcases hclass with hinv | ⟨_, _, hopt⟩
      · rcases hbare with ⟨c, rfl, rfl⟩ | ⟨rfl, he⟩
        · rcases classify_short_bare c with h | ⟨_, h⟩
          · have hc : c = '-' := by
              by_contra hc
              simp [classify, hc] at h
            exact hdash (by simp [hc])
          · rw [h] at hinv
            exact absurd hinv (by simp)
        · rcases classify_long_bare name he with h | ⟨_, _, h⟩
          · have : name = [] ∨ name.head? = some '-' := by
              by_contra hr
              simp [classify, hr, Str.find_of_not_mem name '=' he] at h
            rcases this with h0 | h0
            · exact hne h0
            · exact hdash h0
          · rw [h] at hinv
            exact absurd hinv (by simp)
      · have hreg := CommandLine.pushAll_sameRegistry pre cl cl1 hall
        have hf1 : cl1.findParam name = some d := by
          rw [CommandLine.findParam_of_sameRegistry cl1 cl hreg name, hf]
        have hn1 : (cl1.objs d).needsValue = true := by
          rw [(hreg.2 d).2.2.2.1, hn]
        rw [cl1.pushArg_bare_needsValue t name d hidle hopt hf1 hn1] at hrej
        exact absurd hrej (by simp)
    · have hall2 : cl.pushAll (pre ++ [t]) = some { cl1 with pendingValueArg := some d } := by
        rw [CommandLine.pushAll_append pre [t] cl, hall]
        simp [CommandLine.pushAll, hacc]
      have hval : CommandLine.validate { cl1 with pendingValueArg := some d } = false := by
        simp [CommandLine.validate]
      refine ⟨hacc, hall2, hval, ?_⟩
      apply Prod.ext
      · rw [hparse, CommandLine.parseLoop_eq (pre ++ [t]) cl, hall2]
        exact hval
      · exact CommandLine.parseLoop_state (pre ++ [t]) cl _ hall2
  · intro cl1 _ hidle hbad
    rcases hclass with hinv | ⟨h1, h2, _⟩
    · rw [cl1.pushArg_eq_classify t, hidle, hinv]
    · exact absurd hbad (fun h => h.elim h1 h2)

/-- C5 as amended, at `-v -o`: the flag is accepted, `-o` is accepted and becomes pending, and
`validate` fails, so `parse` returns false. -/
theorem dangling_value_option_fails_witness :
    (exampleCmdline.parse ["asm".toList, "-v".toList, "-o".toList]).1 = false
    ∧ ((exampleCmdline.pushArg "-v".toList).2.pushArg "-o".toList).1 = true
    ∧ ((exampleCmdline.pushArg "-v".toList).2.pushArg "-o".toList).2.pendingValueArg = some 1
    ∧ ((exampleCmdline.pushArg "-v".toList).2.pushArg "-o".toList).2.validate = false :=
  have h := dangling_value_option_fails exampleCmdline "asm".toList ["-v".toList] "-o".toList
    "o".toList 1 (Or.inl ⟨'o', by decide, by decide⟩) (by decide) (by decide)
  have hall : exampleCmdline.pushAll ["-v".toList]
      = some (exampleCmdline.pushArg "-v".toList).2 := by
    have hacc : (exampleCmdline.pushArg "-v".toList).1 = true := by decide
    simp only [CommandLine.pushAll, hacc, if_true]
  have h2 := h.2.1 (exampleCmdline.pushArg "-v".toList).2 hall (by decide) (by decide)
    (by decide)
  ⟨h.1, by rw [h2.1], by rw [h2.1], by rw [h2.1]; exact h2.2.2.1⟩

/-- C6: integer range checking.  For an Integer declaration with bounds `mn`, `mx`
and a token that is the decimal text of an `int` `n` (what `std::to_string`
writes, or any sign-and-digits text denoting `n`): with `mn != mx` the call
`setValue` succeeds exactly when `mn <= n <= mx`, with `mn == mx` it always
succeeds; on success `getInt() = n` and `isSet()`, on failure the object is
unchanged.  With the range [1,16], `--threads 99` is rejected by `pushArg` at the
token `99`; `1` and `16` are accepted, `0` and `17` rejected. -/
theorem int_range_check (p : CommandLineParam) (value mn mx : Int) (s : CppString) (n : Int)
    (hp : p.cls = .IntParam value mn mx)
    (hs : s = to_string n ∨ (isDecimalText s = true ∧ decimalValue s = n))
    (hlo : INT_MIN ≤ n) (hhi : n ≤ INT_MAX) :
    (mn ≠ mx → ((p.setValue s).1 = true ↔ (mn ≤ n ∧ n ≤ mx)))
    ∧ (mn = mx → (p.setValue s).1 = true)
    ∧ ((p.setValue s).1 = true →
        (p.setValue s).2.getInt = n ∧ (p.setValue s).2.isSet = true)
    ∧ ((p.setValue s).1 = false → (p.setValue s).2 = p)
    ∧ (exampleCmdline.pushArg "--threads".toList).1 = true
    ∧ (exampleCmdline.pushArg "--threads".toList).2.pendingValueArg = some 3
    ∧ ((exampleCmdline.pushArg "--threads".toList).2.pushArg "99".toList).1 = false
    ∧ (exampleCmdline.parse ["asm".toList, "--threads".toList, "99".toList]).1 = false
    ∧ ((exampleCmdline.pushArg "--threads".toList).2.pushArg "1".toList).1 = true
    ∧ ((exampleCmdline.pushArg "--threads".toList).2.pushArg "16".toList).1 = true
    ∧ ((exampleCmdline.pushArg "--threads".toList).2.pushArg "0".toList).1 = false
    ∧ ((exampleCmdline.pushArg "--threads".toList).2.pushArg "17".toList).1 = false := by
  have hdec : isDecimalText s = true ∧ decimalValue s = n := by
    rcases hs with rfl | h
    · exact to_string_isDecimalText n
    · exact h
  have hstoi : stoi s = some n := by
    rw [stoi_of_isDecimalText s hdec.1, hdec.2]
    simp [not_lt.mpr hlo, not_lt.mpr hhi]
  have hset := p.setValue_int_of_stoi value mn mx s n hp hstoi
  refine ⟨?_, ?_, ?_, ?_, by decide, by decide, by decide, by decide, by decide, by decide,
    by decide, by decide⟩
  · intro hne
    rw [hset]
    by_cases hin : mn ≤ n ∧ n ≤ mx
    · have : ¬ (n < mn ∨ n > mx) := by omega
      simp [this, hin]
    · have : n < mn ∨ n > mx := by omega
      simp [this, hne, hin]
  · intro he
    rw [hset]
    simp [he]
  · rw [hset]
    split
    · simp
    · simp [CommandLineParam.getInt, CommandLineParam.isSet]
  · rw [hset]
    split
    · simp
    · simp

/-- C6 at `--threads 4` with the range [1,16]. -/
theorem int_range_check_witness :
    ((exampleObjs 3).setValue "4".toList).1 = true
    ∧ ((exampleObjs 3).setValue "4".toList).2.getInt = 4
    ∧ ((exampleObjs 3).setValue "4".toList).2.isSet = true :=
  have h := int_range_check (exampleObjs 3) 1 1 16 "4".toList 4 (by decide)
    (Or.inr ⟨by decide, by decide⟩) (by decide) (by decide)
  have hok := (h.1 (by decide)).mpr ⟨by decide, by decide⟩
  ⟨hok, h.2.2.1 hok⟩

/-- C7 as stated fails: `4x`, ` 4` and `1.5` are not decimal texts, and
`IntParam::setValue` accepts them, storing 4, 4 and 1. -/
theorem int_decode_accepts_trailing_text :
    isDecimalText "4x".toList = false
    ∧ ((exampleObjs 3).setValue "4x".toList).1 = true
    ∧ ((exampleObjs 3).setValue "4x".toList).2.getInt = 4
    ∧ ((exampleObjs 3).setValue "4x".toList).2.isSet = true
    ∧ isDecimalText " 4".toList = false
    ∧ ((exampleObjs 3).setValue " 4".toList).1 = true
    ∧ ((exampleObjs 3).setValue " 4".toList).2.getInt = 4
    ∧ isDecimalText "1.5".toList = false
    ∧ ((exampleObjs 3).setValue "1.5".toList).1 = true
    ∧ ((exampleObjs 3).setValue "1.5".toList).2.getInt = 1 := by
  decide

/-- C7 as amended: `IntParam::setValue` rejects every token that does not start
with a number (after optional white space and an optional sign no digit
follows, as in the empty token, `abc`, `-` and `x4`) and every decimal text
whose number is outside the `int` range, leaving the object unchanged; a token
that starts with a decimal text (white space before it, text not starting with a
digit after it) is decoded exactly as that decimal text is. -/
theorem int_decode_rejects_no_leading_number (p : CommandLineParam) (value mn mx : Int)
    (hp : p.cls = .IntParam value mn mx) :
    (∀ s, hasLeadingNumber s = false → p.setValue s = (false, p))
    ∧ (∀ s, isDecimalText s = true → (decimalValue s < INT_MIN ∨ decimalValue s > INT_MAX) →
        p.setValue s = (false, p))
    ∧ (∀ ws s rest, isDecimalText s = true → (∀ c ∈ ws, isspace c = true) →
        (∀ c, rest.head? = some c → isdigit c = false) →
        p.setValue (ws ++ s ++ rest) = p.setValue s)
    ∧ hasLeadingNumber "".toList = false ∧ hasLeadingNumber "abc".toList = false
    ∧ hasLeadingNumber "-".toList = false ∧ hasLeadingNumber "x4".toList = false
    ∧ hasLeadingNumber "4x".toList = true ∧ hasLeadingNumber " 4".toList = true
    ∧ hasLeadingNumber "1.5".toList = true := by
  refine ⟨?_, ?_, ?_, by decide, by decide, by decide, by decide, by decide, by decide,
    by decide⟩
  · intro s hs
    exact p.setValue_int_of_stoi_none value mn mx s hp (stoi_of_not_hasLeadingNumber s hs)
  · intro s hs hout
    apply p.setValue_int_of_stoi_none value mn mx s hp
    rw [stoi_of_isDecimalText s hs]
    simp [hout]
  · intro ws s rest hs hws hrest
    simp only [CommandLineParam.setValue, hp, stoi_prefix ws s rest hs hws hrest]

/-- C7 as amended, at the declaration `threads`: `abc` and `99999999999` are
rejected and leave it unchanged, and `4x` is decoded as `4` is. -/
theorem int_decode_rejects_no_leading_number_witness :
    (exampleObjs 3).setValue "abc".toList = (false, exampleObjs 3)
    ∧ (exampleObjs 3).setValue "99999999999".toList = (false, exampleObjs 3)
    ∧ (exampleObjs 3).setValue ("".toList ++ "4".toList ++ "x".toList)
        = (exampleObjs 3).setValue "4".toList :=
  have h := int_decode_rejects_no_leading_number (exampleObjs 3) 1 1 16 (by decide)
  ⟨h.1 "abc".toList (by decide),
   h.2.1 "99999999999".toList (by decide) (Or.inr (by decide)),
   h.2.2.1 "".toList "4".toList "x".toList (by decide) (by decide) (by decide)⟩

/-- C8: Boolean decoding.  `BoolParam::setValue(s)` succeeds exactly when `s` is
empty or one of the twelve accepted tokens (case-sensitively); on every
success, the falsy tokens included, the object ends with `getBool() = true`,
`getString() = "true"` and `isSet() = true`, everything else as before; on
failure it is unchanged. -/
theorem bool_decode (p : CommandLineParam) (b : Bool) (s : CppString)
    (hp : p.cls = .BoolParam b) :
    ((p.setValue s).1 = true ↔
      (s = [] ∨ s ∈ ["1".toList, "y".toList, "yes".toList, "t".toList, "true".toList,
        "on".toList, "0".toList, "n".toList, "no".toList, "f".toList, "false".toList,
        "off".toList]))
    ∧ ((p.setValue s).1 = true →
        (p.setValue s).2.getBool = true ∧ (p.setValue s).2.getString = "true".toList
        ∧ (p.setValue s).2.isSet = true
        ∧ (p.setValue s).2
            = { p with strValue := "true".toList, cls := .BoolParam true, _isSet := true })
    ∧ ((p.setValue s).1 = false → (p.setValue s).2 = p) := by
  have hmem : (s ∈ ["1".toList, "y".toList, "yes".toList, "t".toList, "true".toList,
        "on".toList, "0".toList, "n".toList, "no".toList, "f".toList, "false".toList,
        "off".toList]) ↔ (s ∈ CommandLineParam.truthy ∨ s ∈ CommandLineParam.falsy) := by
    rw [← List.mem_append]
    exact Iff.rfl
  rw [hmem, p.setValue_bool b s hp]
  by_cases hc : s = [] ∨ s ∈ CommandLineParam.truthy ∨ s ∈ CommandLineParam.falsy
  · rw [if_pos hc]
    exact ⟨⟨fun _ => hc, fun _ => rfl⟩, fun _ => ⟨rfl, rfl, rfl, rfl⟩,
      fun h => absurd h (by simp)⟩
  · rw [if_neg hc]
    exact ⟨⟨fun h => absurd h (by simp), fun h => absurd h hc⟩,
      fun h => absurd h (by simp), fun _ => rfl⟩

/-- C8 at the flag `verbose` (default false) with the falsy token `off`: the call
succeeds and the flag reads true. -/
theorem bool_decode_witness :
    ((exampleObjs 0).setValue "off".toList).1 = true
    ∧ ((exampleObjs 0).setValue "off".toList).2.getBool = true
    ∧ ((exampleObjs 0).setValue "off".toList).2.getString = "true".toList
    ∧ ((exampleObjs 0).setValue "off".toList).2.isSet = true :=
  have h := bool_decode (exampleObjs 0) false "off".toList (by decide)
  have hok : ((exampleObjs 0).setValue "off".toList).1 = true := by decide
  ⟨hok, (h.2.1 hok).1, (h.2.1 hok).2.1, (h.2.1 hok).2.2.1⟩

/-- C9, the defect: `IntParam::setValue` never writes `strValue`.  On the
declaration `threads` (default 1, range [1,16]) the call `setValue("4")`
succeeds and leaves `isSet()`, `getInt() = 4` and `getString() = "1"`, while the
decimal text of 4 is `"4"`; and for every Integer declaration and every token,
`getString()` after `setValue` is what it was before.  The `BoolParam` override
and the base class do keep `getString()` in step with the value. -/
theorem int_setValue_leaves_getString_stale :
    ((exampleObjs 3).setValue "4".toList).1 = true
    ∧ ((exampleObjs 3).setValue "4".toList).2.isSet = true
    ∧ ((exampleObjs 3).setValue "4".toList).2.getInt = 4
    ∧ ((exampleObjs 3).setValue "4".toList).2.getString = "1".toList
    ∧ to_string 4 = "4".toList
    ∧ ((exampleObjs 3).setValue "4".toList).2.getString
        ≠ to_string ((exampleObjs 3).setValue "4".toList).2.getInt
    ∧ (∀ (p : CommandLineParam) (v mn mx : Int) (s : CppString), p.cls = .IntParam v mn mx →
        (p.setValue s).2.getString = p.getString)
    ∧ (∀ (p : CommandLineParam) (s : CppString), p.cls = .StringParam →
        (p.setValue s).2.getString = s)
    ∧ (∀ (p : CommandLineParam) (b : Bool) (s : CppString), p.cls = .BoolParam b →
        (p.setValue s).1 = true →
        (p.setValue s).2.getString
          = if (p.setValue s).2.getBool then "true".toList else "false".toList) := by
  refine ⟨by decide, by decide, by decide, by decide, by decide, by decide, ?_, ?_, ?_⟩
  · intro p v mn mx s hp
    cases hs : stoi s with
    | none => rw [p.setValue_int_of_stoi_none v mn mx s hp hs]
    | some n =>
      rw [p.setValue_int_of_stoi v mn mx s n hp hs]
      split <;> rfl
  · intro p s hp
    rw [p.setValue_string s hp]
    rfl
  · intro p b s hp hok
    rw [p.setValue_bool b s hp] at hok ⊢
    split at hok
    · rename_i hc
      rw [if_pos hc]
      rfl
    · exact absurd hok (by simp)

/-- C10: repeated supply is a last-write-wins overwrite.  For a String
declaration `d` resolved by the long name `L`, from an Idle state, `--L=v1` and
then `--L=v2` are both accepted and end in exactly the state that `--L=v2` alone
gives: `d` holds `v2` and is set, all else unchanged.  More generally, after any
tokens that are all accepted, a String declaration supplied at least once holds
the raw value of its last occurrence. -/
theorem repeated_supply_last_write_wins (cl : CommandLine) (L v1 v2 : CppString) (d : Ptr)
    (hL : L ≠ []) (hLd : L.head? ≠ some '-') (hLe : '=' ∉ L)
    (hfL : cl.findParam L = some d) (hd : IsStringParam (cl.objs d))
    (hidle : cl.pendingValueArg = none) (hv1 : v1 ≠ []) (hv2 : v2 ≠ []) :
    cl.pushArg ("--".toList ++ L ++ "=".toList ++ v1) = (true, cl.withString d v1)
    ∧ (cl.withString d v1).pushArg ("--".toList ++ L ++ "=".toList ++ v2)
        = (true, cl.withString d v2)
    ∧ cl.pushArg ("--".toList ++ L ++ "=".toList ++ v2) = (true, cl.withString d v2)
    ∧ cl.pushAll ["--".toList ++ L ++ "=".toList ++ v1, "--".toList ++ L ++ "=".toList ++ v2]
        = cl.pushAll ["--".toList ++ L ++ "=".toList ++ v2]
    ∧ ((cl.withString d v2).objs d).getString = v2
    ∧ ((cl.withString d v2).objs d).isSet = true
    ∧ (cl.withString d v2).pendingValueArg = none
    ∧ (cl.withString d v2).simpleArgs = cl.simpleArgs
    ∧ (cl.withString d v2).params = cl.params
    ∧ (∀ q, q ≠ d → (cl.withString d v2).objs q = cl.objs q)
    ∧ cl.lastSupplied d
        ["--".toList ++ L ++ "=".toList ++ v1, "--".toList ++ L ++ "=".toList ++ v2] = some v2
    ∧ (∀ (c0 c1 : CommandLine) (ts : List CppString) (d0 : Ptr) (v : CppString),
        (c0.objs d0).cls = .StringParam → c0.pushAll ts = some c1 →
        c0.lastSupplied d0 ts = some v →
        (c1.objs d0).getString = v ∧ (c1.objs d0).isSet = true) := by
  obtain ⟨hcls, hneeds⟩ := hd
  have key : ∀ (c : CommandLine) (v : CppString), c.pendingValueArg = none →
      c.findParam L = some d → (c.objs d).cls = .StringParam → (c.objs d).needsValue = true →
      v ≠ [] →
      c.pushArg ("--".toList ++ L ++ "=".toList ++ v) = (true, c.withString d v) := by
    intro c v hi hf hc hn hv
    have hvE : v.isEmpty = false := by cases v <;> simp_all
    have := c.pushArg_long_inline L v hi hL hLd hLe
    simp only [String.toList, List.cons_append, List.nil_append, List.append_assoc] at this ⊢
    rw [this]
    simp [CommandLine.dispatch, hf, hn, hvE, CommandLine.addArg_string, hc,
      CommandLine.withString]
  have hsup : ∀ (c : CommandLine) (v : CppString), c.pendingValueArg = none →
      c.findParam L = some d → (c.objs d).needsValue = true → v ≠ [] →
      c.supplied ("--".toList ++ L ++ "=".toList ++ v) = some (d, v) := by
    intro c v hi hf hn hv
    have hvE : v.isEmpty = false := by cases v <;> simp_all
    have hpush := c.pushArg_long_inline L v hi hL hLd hLe
    have hcl : classify ('-' :: '-' :: (L ++ '=' :: v)) = .option L v := by
      have hr : ¬ (L ++ '=' :: v = [] ∨ (L ++ '=' :: v).head? = some '-') := by
        cases L with
        | nil => exact absurd rfl hL
        | cons a L1 => simpa using hLd
      simp only [classify, if_true, hr, if_false, Str.find_append_cons L v '=' hLe]
      simp
    simp only [String.toList, List.cons_append, List.nil_append, List.append_assoc]
    simp [CommandLine.supplied, hi, hcl, hf, hn, hvE]
  have h1 := key cl v1 hidle hfL hcls hneeds hv1
  have h3 := key cl v2 hidle hfL hcls hneeds hv2
  have hreg1 : (cl.withString d v1).sameRegistry cl := by
    have := cl.pushArg_sameRegistry ("--".toList ++ L ++ "=".toList ++ v1)
    rw [h1] at this
    exact this
  have hf1 : (cl.withString d v1).findParam L = some d := by
    rw [CommandLine.findParam_of_sameRegistry _ _ hreg1 L, hfL]
  have hw : (cl.withString d v1).withString d v2 = cl.withString d v2 := by
    simp [CommandLine.withString]
  have h2 : (cl.withString d v1).pushArg ("--".toList ++ L ++ "=".toList ++ v2)
      = (true, cl.withString d v2) := by
    rw [key (cl.withString d v1) v2 (by simpa [CommandLine.withString] using hidle) hf1
      (by simp [CommandLine.withString, hcls]) (by simp [CommandLine.withString, hneeds]) hv2,
      hw]
  have hspec := cl.withString_spec d v2
  refine ⟨h1, h2, h3, ?_, hspec.1, hspec.2.1, hspec.2.2.2.1.trans hidle, hspec.2.2.2.2.1,
    hspec.2.2.2.2.2.1, hspec.2.2.2.2.2.2, ?_, ?_⟩
  · simp only [CommandLine.pushAll, h1, h2, h3, if_true]
  · have hs2 := hsup (cl.withString d v1) v2 (by simpa [CommandLine.withString] using hidle)
      hf1 (by simp [CommandLine.withString, hneeds]) hv2
    simp only [CommandLine.lastSupplied, h1, h2, hs2]
    simp
  · intro c0 c1 ts d0 v hc hall hlast
    have := CommandLine.lastSupplied_spec ts c0 c1 d0 hc hall
    rw [hlast] at this
    exact this

/-- C10 at `--out=a.out --out=b.out`: the declaration `out` ends with `b.out`. -/
theorem repeated_supply_last_write_wins_witness :
    exampleCmdline.pushAll ["--out=a.out".toList, "--out=b.out".toList]
        = exampleCmdline.pushAll ["--out=b.out".toList]
    ∧ exampleCmdline.pushArg "--out=b.out".toList
        = (true, exampleCmdline.withString 1 "b.out".toList)
    ∧ exampleCmdline.lastSupplied 1 ["--out=a.out".toList, "--out=b.out".toList]
        = some "b.out".toList :=
  have h := repeated_supply_last_write_wins exampleCmdline "out".toList "a.out".toList
    "b.out".toList 1 (by decide) (by decide) (by decide) (by decide)
    ⟨by decide, by decide⟩ (by decide) (by decide) (by decide)
  ⟨h.2.2.2.1, h.2.2.1, h.2.2.2.2.2.2.2.2.2.2.1⟩

/-! ## Rejected tokens and the tokens after them -/

/-- Once the tokens of `pre` are accepted, the loop of `parse` goes on from the
state they leave. -/
theorem CommandLine.parseLoop_append (pre rest : List CppString) :
    ∀ (cl cl1 : CommandLine), cl.pushAll pre = some cl1 →
      cl.parseLoop (pre ++ rest) = cl1.parseLoop rest := by
  induction pre with
  | nil =>
    intro cl cl1 h
    simp only [CommandLine.pushAll, Option.some.injEq] at h
    rw [List.nil_append, h]
  | cons t ts ih =>
    intro cl cl1 h
    simp only [CommandLine.pushAll] at h
    cases hb : (cl.pushArg t).1
    · simp [hb] at h
    · simp only [hb, if_true] at h
      simp only [List.cons_append, CommandLine.parseLoop, hb, Bool.not_true, Bool.false_eq_true,
        if_false]
      exact ih _ _ h

/-- The loop of `parse` stops at a rejected token, whatever follows it. -/
theorem CommandLine.parseLoop_reject (cl : CommandLine) (t : CppString) (post : List CppString)
    (hrej : (cl.pushArg t).1 = false) :
    cl.parseLoop (t :: post) = (false, (cl.pushArg t).2) := by
  simp [CommandLine.parseLoop, hrej]

/-- A rejected token changes neither an object, nor the positional list, nor the
registry; only the pending pointer may be cleared. -/
theorem CommandLine.pushArg_reject_frame (cl : CommandLine) (t : CppString)
    (hrej : (cl.pushArg t).1 = false) :
    (cl.pushArg t).2.objs = cl.objs ∧ (cl.pushArg t).2.simpleArgs = cl.simpleArgs
      ∧ (cl.pushArg t).2.params = cl.params := by
  have haddArg : ∀ (p : Ptr) (v : CppString), (cl.addArg p v).1 = false →
      (cl.addArg p v).2 = cl := by
    intro p v h
    rw [cl.addArg_eq p v] at h ⊢
    have hf := (cl.objs p).setValue_fail v h
    simp only [hf, Function.update_eq_self]
  rw [cl.pushArg_eq_classify t] at hrej ⊢
  cases hpend : cl.pendingValueArg with
  | some pending =>
    simp only [hpend] at hrej ⊢
    cases hcl : classify t with
    | plain =>
      simp only [hcl] at hrej ⊢
      rw [haddArg pending t hrej]
      exact ⟨rfl, rfl, rfl⟩
    | invalid => exact ⟨rfl, rfl, rfl⟩
    | option pname pvalue => exact ⟨rfl, rfl, rfl⟩
  | none =>
    simp only [hpend] at hrej ⊢
    cases hcl : classify t with
    | plain => simp [hcl, CommandLine.addSimpleArg] at hrej
    | invalid => exact ⟨rfl, rfl, rfl⟩
    | option pname pvalue =>
      simp only [hcl, CommandLine.dispatch] at hrej ⊢
      cases hf : cl.findParam pname with
      | none => exact ⟨rfl, rfl, rfl⟩
      | some d =>
        simp only [hf] at hrej ⊢
        cases hn : (cl.objs d).needsValue <;> cases he : pvalue.isEmpty
        · exact ⟨rfl, rfl, rfl⟩
        · simp only [hn, he, Bool.false_eq_true, if_false, Bool.not_true] at hrej ⊢
          rw [haddArg d pvalue hrej]
          exact ⟨rfl, rfl, rfl⟩
        · simp only [hn, he, if_true, Bool.false_eq_true, if_false] at hrej ⊢
          rw [haddArg d pvalue hrej]
          exact ⟨rfl, rfl, rfl⟩
        · simp [hn, he] at hrej

/-- In an Idle state an option token whose name is not registered is rejected
and changes nothing. -/
theorem CommandLine.pushArg_unknown (cl : CommandLine) (t name v : CppString)
    (hidle : cl.pendingValueArg = none) (hcl : classify t = .option name v)
    (hf : cl.findParam name = none) : cl.pushArg t = (false, cl) := by
  rw [cl.pushArg_eq_classify t]
  simp [hidle, hcl, CommandLine.dispatch, hf, CommandLine.error]

/-- From an Idle state plain tokens are all accepted and appended in order. -/
theorem CommandLine.pushAll_plain (ts : List CppString) :
    ∀ (cl : CommandLine), cl.pendingValueArg = none →
      (∀ t ∈ ts, t ≠ [] ∧ t.head? ≠ some '-') →
      cl.pushAll ts = some { cl with simpleArgs := cl.simpleArgs ++ ts } := by
  induction ts with
  | nil =>
    intro cl _ _
    simp [CommandLine.pushAll]
  | cons t ts ih =>
    intro cl hidle hall
    have ht := hall t (by simp)
    have hstep := cl.pushArg_idle_plain t hidle (classify_plain t ht.1 ht.2)
    simp only [CommandLine.pushAll, hstep, if_true]
    have hrec := ih ({ cl with simpleArgs := cl.simpleArgs ++ [t] } : CommandLine) hidle
      (fun u hu => hall u (by simp [hu]))
    rw [hrec]
    simp

/-- C11: parsing aborts at the first rejected token and processes nothing after
it.  When the tokens of `pre` are all accepted and leave the state `cl1`, and
`pushArg` rejects `t`, then `parse` over `[program] ++ pre ++ [t] ++ post`
returns false and its final state is the state right after `t` was rejected,
whatever `post` is.  In particular, when `cl1` is Idle and `t` is an option
token whose extracted name `findParam` does not resolve, `t` is rejected and
the final state is `cl1`: nothing of `post` is applied. -/
theorem parse_aborts_at_first_rejected (cl : CommandLine) (prog : CppString)
    (pre : List CppString) (t : CppString) (post : List CppString) (cl1 : CommandLine)
    (hpre : cl.pushAll pre = some cl1) :
    ((cl1.pushArg t).1 = false →
      cl.parse (prog :: (pre ++ t :: post)) = (false, (cl1.pushArg t).2)
      ∧ (∀ post2 : List CppString,
          cl.parse (prog :: (pre ++ t :: post2)) = cl.parse (prog :: (pre ++ t :: post)))
      ∧ (cl.parse (prog :: (pre ++ t :: post))).2.objs = cl1.objs
      ∧ (cl.parse (prog :: (pre ++ t :: post))).2.simpleArgs = cl1.simpleArgs)
    ∧ (∀ name v : CppString, cl1.pendingValueArg = none → classify t = .option name v →
        cl.findParam name = none →
        cl1.pushArg t = (false, cl1)
        ∧ cl.parse (prog :: (pre ++ t :: post)) = (false, cl1)) := by
  have hparse : ∀ post2 : List CppString, (cl1.pushArg t).1 = false →
      cl.parse (prog :: (pre ++ t :: post2)) = (false, (cl1.pushArg t).2) := by
    intro post2 hrej
    have h0 : cl.parse (prog :: (pre ++ t :: post2)) = cl.parseLoop (pre ++ t :: post2) := rfl
    rw [h0, CommandLine.parseLoop_append pre (t :: post2) cl cl1 hpre,
      cl1.parseLoop_reject t post2 hrej]
  refine ⟨?_, ?_⟩
  · intro hrej
    have hframe := cl1.pushArg_reject_frame t hrej
    refine ⟨hparse post hrej, ?_, ?_, ?_⟩
    · intro post2
      rw [hparse post2 hrej, hparse post hrej]
    · rw [hparse post hrej]
      exact hframe.1
    · rw [hparse post hrej]
      exact hframe.2.1
  · intro name v hidle hcl hf
    have hreg := CommandLine.pushAll_sameRegistry pre cl cl1 hpre
    have hf1 : cl1.findParam name = none := by
      rw [CommandLine.findParam_of_sameRegistry cl1 cl hreg name, hf]
    have hpush := cl1.pushArg_unknown t name v hidle hcl hf1
    refine ⟨hpush, ?_⟩
    have hrej : (cl1.pushArg t).1 = false := by rw [hpush]
    rw [hparse post hrej, hpush]

/-- C11 at `-v --bogus --out=a.out input.s`: the flag is applied, `--bogus` is
rejected, and neither `--out=a.out` nor `input.s` is applied. -/
theorem parse_aborts_at_first_rejected_witness :
    exampleCmdline.parse ["asm".toList, "-v".toList, "--bogus".toList, "--out=a.out".toList,
        "input.s".toList] = (false, (exampleCmdline.pushArg "-v".toList).2)
    ∧ ((exampleCmdline.pushArg "-v".toList).2.objs 1).isSet = false
    ∧ (exampleCmdline.pushArg "-v".toList).2.simpleArgs = [] :=
  have hall : exampleCmdline.pushAll ["-v".toList]
      = some (exampleCmdline.pushArg "-v".toList).2 := by
    have hacc : (exampleCmdline.pushArg "-v".toList).1 = true := by decide
    simp only [CommandLine.pushAll, hacc, if_true]
  have h := parse_aborts_at_first_rejected exampleCmdline "asm".toList ["-v".toList]
    "--bogus".toList ["--out=a.out".toList, "input.s".toList]
    (exampleCmdline.pushArg "-v".toList).2 hall
  ⟨(h.2 "bogus".toList [] (by decide) (by decide) (by decide)).2, by decide, by decide⟩

/-- C12: positional arguments are collected in encounter order and `argv[0]` is
skipped.  From a fresh parser (no positional yet, nothing pending) over a
registry with no mandatory declaration, when every token after `argv[0]` is
non-empty and does not start with `-`, `parse` returns true, `simpleArgs` is
exactly the list of those tokens in order, and no object is changed. -/
theorem positionals_collected_in_order (cl : CommandLine) (argv : List CppString)
    (hargs : cl.simpleArgs = []) (hidle : cl.pendingValueArg = none)
    (hnomand : ∀ p ∈ cl.params, (cl.objs p).mandatory = false)
    (htok : ∀ t ∈ argv.drop 1, t ≠ [] ∧ t.head? ≠ some '-') :
    (cl.parse argv).1 = true
    ∧ (cl.parse argv).2.simpleArgs = argv.drop 1
    ∧ (cl.parse argv).2.objs = cl.objs
    ∧ (cl.parse argv).2.params = cl.params
    ∧ (cl.parse argv).2.pendingValueArg = none
    ∧ (∀ (prog1 prog2 : CppString) (toks : List CppString), argv = prog1 :: toks →
        (cl.parse (prog2 :: toks)).2.simpleArgs = toks) := by
  have hgen : ∀ ts : List CppString, (∀ t ∈ ts, t ≠ [] ∧ t.head? ≠ some '-') →
      cl.parseLoop ts = (true, { cl with simpleArgs := ts }) := by
    intro ts hts
    have hall := CommandLine.pushAll_plain ts cl hidle hts
    rw [hargs, List.nil_append] at hall
    have hval : CommandLine.validate { cl with simpleArgs := ts } = true := by
      rw [CommandLine.validate_eq_true]
      refine ⟨hidle, ?_⟩
      intro p hp hm
      have := hnomand p hp
      rw [this] at hm
      exact absurd hm (by simp)
    apply Prod.ext
    · rw [CommandLine.parseLoop_eq ts cl, hall]
      exact hval
    · exact CommandLine.parseLoop_state ts cl _ hall
  have hp : cl.parse argv = (true, { cl with simpleArgs := argv.drop 1 }) := hgen _ htok
  refine ⟨by rw [hp], by rw [hp], by rw [hp], by rw [hp], by rw [hp]; exact hidle, ?_⟩
  intro prog1 prog2 toks he
  have htoks : ∀ t ∈ toks, t ≠ [] ∧ t.head? ≠ some '-' := by
    rw [he] at htok
    exact htok
  have hp2 : cl.parse (prog2 :: toks) = (true, { cl with simpleArgs := toks }) := hgen _ htoks
  rw [hp2]

/-- C12 on a registry without the mandatory `out`, at `a.s b.s a.s`, with a
program name that looks like an option. -/
theorem positionals_collected_in_order_witness :
    ((((CommandLine.new exampleObjs).registerParam 0).registerParam 2).parse
        ["-asm".toList, "a.s".toList, "b.s".toList, "a.s".toList]).1 = true
    ∧ ((((CommandLine.new exampleObjs).registerParam 0).registerParam 2).parse
        ["-asm".toList, "a.s".toList, "b.s".toList, "a.s".toList]).2.simpleArgs
      = ["a.s".toList, "b.s".toList, "a.s".toList]
    ∧ ((((CommandLine.new exampleObjs).registerParam 0).registerParam 2).parse
        ["-asm".toList, "a.s".toList, "b.s".toList, "a.s".toList]).2.objs = exampleObjs :=
  have h := positionals_collected_in_order
    (((CommandLine.new exampleObjs).registerParam 0).registerParam 2)
    ["-asm".toList, "a.s".toList, "b.s".toList, "a.s".toList]
    (by decide) (by decide) (by decide) (by decide)
  ⟨h.1, h.2.1, h.2.2.1⟩

/-- C13, the defect: `main` constructs `threadCount` and never registers it.  In
the driver's registry the names `v`, `verbose`, `o`, `out`, `l` and `lst`
resolve to the flag, the mandatory output path and the listing path, while `j`
and `threads` resolve to nothing; so on `-o a.out -j 4 input.s` the token `-j`
is rejected as an unknown parameter, `parse` returns false, and `threadCount`
keeps its default 1.  With the fourth declaration registered the same input is
parsed successfully with threads = 4. -/
theorem driver_does_not_register_threads :
    driverCmdline.params = [0, 1, 2]
    ∧ driverCmdline.findParam "v".toList = some 0
    ∧ driverCmdline.findParam "verbose".toList = some 0
    ∧ driverCmdline.findParam "o".toList = some 1
    ∧ driverCmdline.findParam "out".toList = some 1
    ∧ driverCmdline.findParam "l".toList = some 2
    ∧ driverCmdline.findParam "lst".toList = some 2
    ∧ (driverCmdline.objs 0).cls = .BoolParam false
    ∧ ((driverCmdline.objs 1).cls = .StringParam ∧ (driverCmdline.objs 1).mandatory = true)
    ∧ ((driverCmdline.objs 2).cls = .StringParam ∧ (driverCmdline.objs 2).mandatory = false)
    ∧ (driverCmdline.objs 3).cls = .IntParam 1 1 16
    ∧ (driverCmdline.objs 3).sameName "j".toList = true
    ∧ (driverCmdline.objs 3).sameName "threads".toList = true
    ∧ driverCmdline.findParam "j".toList = none
    ∧ driverCmdline.findParam "threads".toList = none
    ∧ (driverCmdline.pushAll ["-o".toList, "a.out".toList]).isSome = true
    ∧ (driverCmdline.parse ["asm".toList, "-o".toList, "a.out".toList, "-j".toList,
        "4".toList, "input.s".toList]).1 = false
    ∧ ((driverCmdline.parse ["asm".toList, "-o".toList, "a.out".toList, "-j".toList,
        "4".toList, "input.s".toList]).2.objs 3).getInt = 1
    ∧ (driverCmdline.parse ["asm".toList, "-o".toList, "a.out".toList, "-j".toList,
        "4".toList, "input.s".toList]).2.simpleArgs = []
    ∧ (driverCmdline.parse ["asm".toList, "--threads=4".toList]).1 = false
    ∧ ((driverCmdline.registerParam 3).parse ["asm".toList, "-o".toList, "a.out".toList,
        "-j".toList, "4".toList, "input.s".toList]).1 = true
    ∧ (((driverCmdline.registerParam 3).parse ["asm".toList, "-o".toList, "a.out".toList,
        "-j".toList, "4".toList, "input.s".toList]).2.objs 3).getInt = 4 := by
  decide

/-- C14: a rejected token changes no value.  When `pushArg(t)` returns false in
state `c` (Idle or awaiting a value), every object (raw string, typed value,
`isSet`), the positional list and the registry are exactly as before the call.
Hence when `parse` fails at `t` after accepting `pre`, its final state holds the
objects and positionals that the accepted tokens left. -/
theorem rejected_token_changes_no_value (c : CommandLine) (t : CppString)
    (hrej : (c.pushArg t).1 = false) :
    (c.pushArg t).2.objs = c.objs
    ∧ (c.pushArg t).2.simpleArgs = c.simpleArgs
    ∧ (c.pushArg t).2.params = c.params
    ∧ (∀ q, ((c.pushArg t).2.objs q).getString = (c.objs q).getString
        ∧ ((c.pushArg t).2.objs q).getBool = (c.objs q).getBool
        ∧ ((c.pushArg t).2.objs q).getInt = (c.objs q).getInt
        ∧ ((c.pushArg t).2.objs q).isSet = (c.objs q).isSet)
    ∧ (∀ (cl : CommandLine) (prog : CppString) (pre post : List CppString),
        cl.pushAll pre = some c →
        (cl.parse (prog :: (pre ++ t :: post))).1 = false
        ∧ (cl.parse (prog :: (pre ++ t :: post))).2.objs = c.objs
        ∧ (cl.parse (prog :: (pre ++ t :: post))).2.simpleArgs = c.simpleArgs) := by
  have hframe := c.pushArg_reject_frame t hrej
  refine ⟨hframe.1, hframe.2.1, hframe.2.2, ?_, ?_⟩
  · intro q
    rw [hframe.1]
    exact ⟨rfl, rfl, rfl, rfl⟩
  · intro cl prog pre post hpre
    have h0 : cl.parse (prog :: (pre ++ t :: post)) = cl.parseLoop (pre ++ t :: post) := rfl
    rw [h0, CommandLine.parseLoop_append pre (t :: post) cl c hpre,
      c.parseLoop_reject t post hrej]
    exact ⟨rfl, hframe.1, hframe.2.1⟩

/-- C14 at `--out=a.out -j 99`: the number is rejected while `threads` is
pending, and `out` still holds `a.out`. -/
theorem rejected_token_changes_no_value_witness :
    (exampleCmdline.parse ["asm".toList, "--out=a.out".toList, "-j".toList,
        "99".toList]).1 = false
    ∧ (exampleCmdline.parse ["asm".toList, "--out=a.out".toList, "-j".toList,
        "99".toList]).2.objs
      = ((exampleCmdline.pushArg "--out=a.out".toList).2.pushArg "-j".toList).2.objs
    ∧ (((exampleCmdline.pushArg "--out=a.out".toList).2.pushArg "-j".toList).2.objs
        1).getString = "a.out".toList :=
  have hall : exampleCmdline.pushAll ["--out=a.out".toList, "-j".toList]
      = some ((exampleCmdline.pushArg "--out=a.out".toList).2.pushArg "-j".toList).2 := by
    have h1 : (exampleCmdline.pushArg "--out=a.out".toList).1 = true := by decide
    have h2 : ((exampleCmdline.pushArg "--out=a.out".toList).2.pushArg "-j".toList).1 = true := by
      decide
    simp only [CommandLine.pushAll, h1, h2, if_true]
  have h := rejected_token_changes_no_value
    ((exampleCmdline.pushArg "--out=a.out".toList).2.pushArg "-j".toList).2 "99".toList
    (by decide)
  have hp := h.2.2.2.2 exampleCmdline "asm".toList ["--out=a.out".toList, "-j".toList] [] hall
  ⟨hp.1, hp.2.1, by decide⟩

/-! ## Tokens in the two states -/

theorem classify_nil_or_dash (t : CppString) (h : t = [] ∨ t = ['-']) :
    classify t = .invalid := by
  rcases h with rfl | rfl <;> simp [classify]

/-- While a declaration is pending, a token that starts with `-` or is empty is
rejected and nothing changes: the declaration stays pending. -/
theorem CommandLine.pushArg_pending_reject (cl : CommandLine) (t : CppString) (d : Ptr)
    (hpend : cl.pendingValueArg = some d) (ht : t = [] ∨ t.head? = some '-') :
    cl.pushArg t = (false, cl) := by
  have hne : classify t ≠ .plain := by
    cases t with
    | nil => simp [classify]
    | cons a t1 =>
      have ha : a = '-' := by simpa using ht
      subst ha
      cases t1 with
      | nil => simp [classify]
      | cons b rest => exact classify_dash_ne_plain b rest
  rw [cl.pushArg_eq_classify t, hpend]
  cases hcl : classify t with
  | plain => exact absurd hcl hne
  | invalid => rfl
  | option pname pvalue => rfl

/-- While a declaration is pending, a non-empty token that does not start with
`-` is handed to `setValue`, and the pending pointer is cleared whatever
`setValue` returns. -/
theorem CommandLine.pushArg_pending_plain (cl : CommandLine) (t : CppString) (d : Ptr)
    (hpend : cl.pendingValueArg = some d) (hne : t ≠ []) (hd : t.head? ≠ some '-') :
    cl.pushArg t = (((cl.objs d).setValue t).1,
      { cl with objs := Function.update cl.objs d ((cl.objs d).setValue t).2,
                pendingValueArg := none }) := by
  rw [cl.pushArg_eq_classify t]
  simp [hpend, classify_plain t hne hd, cl.addArg_eq d t]

/-- C15 as stated fails: with `out` pending, `setValue` would accept `-x`,
`--name`, `-5`, `-` and the empty string (a String declaration accepts every
string), and `pushArg` rejects each of them, leaving `out` pending and not set. -/
theorem awaiting_value_rejects_dash_tokens :
    (exampleCmdline.pushArg "-o".toList).1 = true
    ∧ (exampleCmdline.pushArg "-o".toList).2.pendingValueArg = some 1
    ∧ (((exampleCmdline.pushArg "-o".toList).2.objs 1).setValue "-x".toList).1 = true
    ∧ ((exampleCmdline.pushArg "-o".toList).2.pushArg "-x".toList).1 = false
    ∧ (((exampleCmdline.pushArg "-o".toList).2.objs 1).setValue "--name".toList).1 = true
    ∧ ((exampleCmdline.pushArg "-o".toList).2.pushArg "--name".toList).1 = false
    ∧ (((exampleCmdline.pushArg "-o".toList).2.objs 1).setValue "-5".toList).1 = true
    ∧ ((exampleCmdline.pushArg "-o".toList).2.pushArg "-5".toList).1 = false
    ∧ (((exampleCmdline.pushArg "-o".toList).2.objs 1).setValue "-".toList).1 = true
    ∧ ((exampleCmdline.pushArg "-o".toList).2.pushArg "-".toList).1 = false
    ∧ (((exampleCmdline.pushArg "-o".toList).2.objs 1).setValue "".toList).1 = true
    ∧ ((exampleCmdline.pushArg "-o".toList).2.pushArg "".toList).1 = false
    ∧ ((exampleCmdline.pushArg "-o".toList).2.pushArg "-x".toList).2.pendingValueArg = some 1
    ∧ (((exampleCmdline.pushArg "-o".toList).2.pushArg "-x".toList).2.objs 1).isSet = false := by
  decide

/-- C15 as amended: in the AwaitingValue(d) state a non-empty token that does not
start with `-` is always the value: `pushArg(t)` invokes `d.setValue(t)`, returns
what it returns, and leaves the parser Idle with `t` not added to the
positional list and no other object touched.  A token that starts with `-`
(`-x`, `--name`, `-5`, the lone `-`) and the empty token are rejected without
`setValue` being invoked; nothing changes and `d` stays pending. -/
theorem awaiting_value_takes_plain_token (cl : CommandLine) (d : Ptr) (t : CppString)
    (hpend : cl.pendingValueArg = some d) :
    ((t ≠ [] ∧ t.head? ≠ some '-') →
      (cl.pushArg t).1 = ((cl.objs d).setValue t).1
      ∧ (cl.pushArg t).2.objs = Function.update cl.objs d ((cl.objs d).setValue t).2
      ∧ (cl.pushArg t).2.pendingValueArg = none
      ∧ (cl.pushArg t).2.simpleArgs = cl.simpleArgs
      ∧ (cl.pushArg t).2.params = cl.params)
    ∧ ((t = [] ∨ t.head? = some '-') → cl.pushArg t = (false, cl)) := by
  refine ⟨?_, ?_⟩
  · rintro ⟨hne, hd⟩
    rw [cl.pushArg_pending_plain t d hpend hne hd]
    exact ⟨rfl, rfl, rfl, rfl, rfl⟩
  · intro ht
    exact cl.pushArg_pending_reject t d hpend ht

/-- C15 as amended, with `threads` pending: `7` is decoded and stored, `99` is
handed to `setValue` and refused, `-5` is rejected with `threads` still pending. -/
theorem awaiting_value_takes_plain_token_witness :
    ((exampleCmdline.pushArg "-j".toList).2.pushArg "7".toList).1 = true
    ∧ (((exampleCmdline.pushArg "-j".toList).2.pushArg "7".toList).2.objs 3).getInt = 7
    ∧ ((exampleCmdline.pushArg "-j".toList).2.pushArg "7".toList).2.pendingValueArg = none
    ∧ ((exampleCmdline.pushArg "-j".toList).2.pushArg "99".toList).1 = false
    ∧ (exampleCmdline.pushArg "-j".toList).2.pushArg "-5".toList
        = (false, (exampleCmdline.pushArg "-j".toList).2) :=
  have h7 := awaiting_value_takes_plain_token (exampleCmdline.pushArg "-j".toList).2 3
    "7".toList (by decide)
  have h5 := awaiting_value_takes_plain_token (exampleCmdline.pushArg "-j".toList).2 3
    "-5".toList (by decide)
  have a7 := h7.1 ⟨by decide, by decide⟩
  ⟨a7.1.trans (by decide), by decide, a7.2.2.1, by decide, h5.2 (Or.inr (by decide))⟩

/-- C16 as stated fails: in an Idle state the empty token and the lone `-` are
not appended to the positional list; `pushArg` rejects both and changes nothing. -/
theorem idle_rejects_empty_and_lone_dash :
    exampleCmdline.pendingValueArg = none
    ∧ (exampleCmdline.pushArg "".toList).1 = false
    ∧ (exampleCmdline.pushArg "".toList).2.simpleArgs = []
    ∧ (exampleCmdline.pushArg "-".toList).1 = false
    ∧ (exampleCmdline.pushArg "-".toList).2.simpleArgs = [] := by
  decide

/-- C16 as amended: token classification in the Idle state is total over three
classes.  A token is an option token exactly when its length is at least 2 and
it starts with `-`.  A token that is non-empty and does not start with `-` is a
plain token: `pushArg` accepts it, appends it to the end of the positional list
and changes nothing else.  The empty token and the lone `-` are rejected as
invalid arguments and change nothing.  An option token takes the
invalid-argument exit exactly when its remainder after stripping one or two
leading dashes is empty or starts with `-` (as in `--` and `---x`); otherwise a
name and an inline value are extracted and looked up. -/
theorem idle_token_classes (cl : CommandLine) (t : CppString)
    (hidle : cl.pendingValueArg = none) :
    ((t ≠ [] ∧ t.head? ≠ some '-') ∨ (t = [] ∨ t = ['-'])
        ∨ (t.length ≥ 2 ∧ t.head? = some '-'))
    ∧ ((t.length ≥ 2 ∧ t.head? = some '-') ↔ ∃ b rest, t = '-' :: b :: rest)
    ∧ ((t ≠ [] ∧ t.head? ≠ some '-') →
        cl.pushArg t = (true, { cl with simpleArgs := cl.simpleArgs ++ [t] }))
    ∧ ((t = [] ∨ t = ['-']) → cl.pushArg t = (false, cl))
    ∧ (∀ b rest, t = '-' :: b :: rest →
        ((((if b = '-' then rest else b :: rest) = []
            ∨ (if b = '-' then rest else b :: rest).head? = some '-') ↔
          classify t = .invalid)
        ∧ (classify t = .invalid → cl.pushArg t = (false, cl))
        ∧ (classify t ≠ .invalid →
            ∃ pname pvalue, classify t = .option pname pvalue
              ∧ cl.pushArg t = cl.dispatch pname pvalue)))
    ∧ classify "--".toList = .invalid ∧ classify "---x".toList = .invalid := by
  refine ⟨?_, ?_, ?_, ?_, ?_, by decide, by decide⟩
  · cases t with
    | nil => exact Or.inr (Or.inl (Or.inl rfl))
    | cons a t1 =>
      by_cases ha : a = '-'
      · subst ha
        cases t1 with
        | nil => exact Or.inr (Or.inl (Or.inr rfl))
        | cons b rest => exact Or.inr (Or.inr ⟨by simp, rfl⟩)
      · exact Or.inl ⟨by simp, by simpa using ha⟩
  · constructor
    · rintro ⟨hlen, hhead⟩
      cases t with
      | nil => simp at hlen
      | cons a t1 =>
        cases t1 with
        | nil => simp at hlen
        | cons b rest =>
          have ha : a = '-' := by simpa using hhead
          exact ⟨b, rest, by rw [ha]⟩
    · rintro ⟨b, rest, rfl⟩
      exact ⟨by simp, rfl⟩
  · rintro ⟨hne, hd⟩
    exact cl.pushArg_idle_plain t hidle (classify_plain t hne hd)
  · intro h
    rw [cl.pushArg_eq_classify t, hidle, classify_nil_or_dash t h]
  · intro b rest ht
    subst ht
    have hne := classify_dash_ne_plain b rest
    refine ⟨?_, ?_, ?_⟩
    · by_cases hb : b = '-'
      · subst hb
        by_cases hr : rest = [] ∨ rest.head? = some '-'
        · simp [classify, hr]
        · cases hf : Str.find rest '=' <;> simp [classify, hr, hf]
      · simp [classify, hb]
    · intro hinv
      rw [cl.pushArg_eq_classify _, hidle, hinv]
    · intro hninv
      cases hcl : classify ('-' :: b :: rest) with
      | plain => exact absurd hcl hne
      | invalid => exact absurd hcl hninv
      | option pname pvalue =>
        refine ⟨pname, pvalue, rfl, ?_⟩
        rw [cl.pushArg_eq_classify _, hidle, hcl]

/-- C16 as amended, in the fresh example parser: `input.s` and `a-b` are appended,
the empty token and `-` are rejected, and `--out=x` reaches the lookup. -/
theorem idle_token_classes_witness :
    exampleCmdline.pushArg "a-b".toList
        = (true, { exampleCmdline with simpleArgs := exampleCmdline.simpleArgs ++ ["a-b".toList] })
    ∧ exampleCmdline.pushArg "".toList = (false, exampleCmdline)
    ∧ exampleCmdline.pushArg "-".toList = (false, exampleCmdline)
    ∧ exampleCmdline.pushArg "---x".toList = (false, exampleCmdline) :=
  have h1 := idle_token_classes exampleCmdline "a-b".toList (by decide)
  have h2 := idle_token_classes exampleCmdline "".toList (by decide)
  have h3 := idle_token_classes exampleCmdline "-".toList (by decide)
  have h4 := idle_token_classes exampleCmdline "---x".toList (by decide)
  ⟨h1.2.2.1 ⟨by decide, by decide⟩, h2.2.2.2.1 (Or.inl rfl), h3.2.2.2.1 (Or.inr rfl),
    (h4.2.2.2.2.1 '-' "-x".toList rfl).2.1 (by decide)⟩

/-- C18 as stated fails: `--out=` carries an `=` and an empty inline value, and
`pushArg` does not invoke `setValue("")`: `out` stays not set and becomes the
pending value holder, so the next token is taken as its value. -/
theorem long_form_empty_inline_value_goes_pending :
    classify "--out=".toList = .option "out".toList []
    ∧ (exampleCmdline.pushArg "--out=".toList).1 = true
    ∧ (exampleCmdline.pushArg "--out=".toList).2.pendingValueArg = some 1
    ∧ ((exampleCmdline.pushArg "--out=".toList).2.objs 1).isSet = false
    ∧ (((exampleCmdline.objs 1).setValue "".toList).2).isSet = true
    ∧ (((exampleCmdline.pushArg "--out=".toList).2.pushArg "x".toList).2.objs 1).getString
        = "x".toList := by
  decide

/-- C18 as amended: long-form splitting is at the first `=`, and the presence of
an inline value is decided by its being non-empty.  For a long-form token
`--r` with `r` non-empty and not starting with `-`, in an Idle state: if
`r = name ++ "=" ++ v` with no `=` in `name`, the extracted name is `name` and
the inline value is `v` (so `--out=a=b` carries `a=b`); for a value-needing
declaration resolved by that name, a non-empty `v` is handed to `setValue`
immediately and the parser stays Idle, while an empty `v` (`--name=`) makes the
declaration pending without `setValue` being invoked; and if `r` contains no
`=`, the name is `r` and the declaration becomes pending. -/
theorem long_form_split_at_first_eq (cl : CommandLine) (r : CppString)
    (hidle : cl.pendingValueArg = none) (hne : r ≠ []) (hdash : r.head? ≠ some '-') :
    (∀ name v : CppString, r = name ++ '=' :: v → '=' ∉ name →
        classify ('-' :: '-' :: r) = .option name v
        ∧ cl.pushArg ('-' :: '-' :: r) = cl.dispatch name v
        ∧ (∀ d, cl.findParam name = some d → (cl.objs d).needsValue = true →
            (v ≠ [] →
              (cl.pushArg ('-' :: '-' :: r)).1 = ((cl.objs d).setValue v).1
              ∧ (cl.pushArg ('-' :: '-' :: r)).2.objs
                  = Function.update cl.objs d ((cl.objs d).setValue v).2
              ∧ (cl.pushArg ('-' :: '-' :: r)).2.pendingValueArg = none)
            ∧ (v = [] →
              cl.pushArg ('-' :: '-' :: r) = (true, { cl with pendingValueArg := some d }))))
    ∧ ('=' ∉ r →
        classify ('-' :: '-' :: r) = .option r []
        ∧ (∀ d, cl.findParam r = some d → (cl.objs d).needsValue = true →
            cl.pushArg ('-' :: '-' :: r) = (true, { cl with pendingValueArg := some d })))
    ∧ classify "--out=a=b".toList = .option "out".toList "a=b".toList := by
  refine ⟨?_, ?_, by decide⟩
  · intro name v hr hname
    have hr2 : ¬ (name ++ '=' :: v = [] ∨ (name ++ '=' :: v).head? = some '-') := by
      rw [← hr]
      exact fun h => h.elim hne hdash
    have hcl : classify ('-' :: '-' :: r) = .option name v := by
      rw [hr]
      simp only [classify, if_true, hr2, if_false, Str.find_append_cons name v '=' hname]
      simp
    have hpush : cl.pushArg ('-' :: '-' :: r) = cl.dispatch name v := by
      rw [cl.pushArg_eq_classify _, hidle, hcl]
    refine ⟨hcl, hpush, ?_⟩
    intro d hf hn
    refine ⟨?_, ?_⟩
    · intro hv
      have hvE : v.isEmpty = false := by cases v <;> simp_all
      rw [hpush]
      simp [CommandLine.dispatch, hf, hn, hvE, cl.addArg_eq d v, hidle]
    · intro hv
      subst hv
      rw [hpush]
      simp [CommandLine.dispatch, hf, hn]
  · intro hr
    have hr2 : ¬ (r = [] ∨ r.head? = some '-') := fun h => h.elim hne hdash
    have hcl : classify ('-' :: '-' :: r) = .option r [] := by
      simp only [classify, if_true, hr2, if_false, Str.find_of_not_mem r '=' hr]
    refine ⟨hcl, ?_⟩
    intro d hf hn
    exact cl.pushArg_bare_needsValue _ r d hidle hcl hf hn

/-- C18 as amended, at `--out=a=b`, `--out=` and `--out`. -/
theorem long_form_split_at_first_eq_witness :
    (exampleCmdline.pushArg "--out=a=b".toList).1 = true
    ∧ (exampleCmdline.pushArg "--out=a=b".toList).2.pendingValueArg = none
    ∧ exampleCmdline.pushArg "--out=".toList
        = (true, { exampleCmdline with pendingValueArg := some 1 })
    ∧ exampleCmdline.pushArg "--out".toList
        = (true, { exampleCmdline with pendingValueArg := some 1 }) :=
  have h1 := long_form_split_at_first_eq exampleCmdline "out=a=b".toList (by decide) (by decide)
    (by decide)
  have h2 := long_form_split_at_first_eq exampleCmdline "out=".toList (by decide) (by decide)
    (by decide)
  have h3 := long_form_split_at_first_eq exampleCmdline "out".toList (by decide) (by decide)
    (by decide)
  have a1 := ((h1.1 "out".toList "a=b".toList rfl (by decide)).2.2 1 (by decide)
    (by decide)).1 (by decide)
  ⟨a1.1.trans (by decide), a1.2.2,
    ((h2.1 "out".toList [] rfl (by decide)).2.2 1 (by decide) (by decide)).2 rfl,
    (h3.2.1 (by decide)).2 1 (by decide) (by decide)⟩

/-! ## Presence flags -/

theorem classify_empty_name (v : CppString) :
    classify ('-' :: '-' :: '=' :: v) = .option [] v := by
  have hne : ¬ ('=' = '-') := by decide
  simp [classify, Str.find, hne]

/-- C19, the defect: `sameName` compares the extracted name with both names of a
declaration, also when one of them is empty, and `pushArg` checks the remainder
of the token for emptiness but not the name extracted from it.  In the registry
holding only `StringParam("", "out", ...)` every declaration has a non-empty
name, the token `--=x` has the empty extracted name, `findParam("")` selects
`out` through its empty short name, and `pushArg` accepts the token and stores
`x`.  Where every registered declaration has both names non-empty, the token
`--=v` is rejected and nothing changes. -/
theorem empty_option_name_selects_declaration :
    (∀ p ∈ longOnlyCmdline.params,
        (longOnlyCmdline.objs p).shortName ≠ [] ∨ (longOnlyCmdline.objs p).longName ≠ [])
    ∧ longOnlyCmdline.pendingValueArg = none
    ∧ classify "--=x".toList = .option [] "x".toList
    ∧ (longOnlyCmdline.objs 0).name = "out".toList
    ∧ longOnlyCmdline.findParam [] = some 0
    ∧ (longOnlyCmdline.pushArg "--=x".toList).1 = true
    ∧ ((longOnlyCmdline.pushArg "--=x".toList).2.objs 0).getString = "x".toList
    ∧ ((longOnlyCmdline.pushArg "--=x".toList).2.objs 0).isSet = true
    ∧ (longOnlyCmdline.objs 0).isSet = false
    ∧ (longOnlyCmdline.parse ["asm".toList, "--=x".toList]).1 = true
    ∧ (∀ (cl : CommandLine) (v : CppString), cl.pendingValueArg = none →
        (∀ p ∈ cl.params, (cl.objs p).shortName ≠ [] ∧ (cl.objs p).longName ≠ []) →
        cl.pushArg ('-' :: '-' :: '=' :: v) = (false, cl)) := by
  refine ⟨by decide, by decide, by decide, by decide, by decide, by decide, by decide,
    by decide, by decide, by decide, ?_⟩
  intro cl v hidle hnames
  have hf : cl.findParam [] = none := by
    apply (CommandLine.findParamLoop_eq_none cl.objs [] cl.params).mpr
    intro q hq
    have h := hnames q hq
    simp [CommandLineParam.sameName, h.1, h.2]
  exact cl.pushArg_unknown _ [] v hidle (classify_empty_name v) hf

/-! ## `SourceFile` -/

theorem intOfSize_of_lt (n : Nat) (h : n < 2147483648) : intOfSize n = (n : Int) := by
  have h1 : n % 4294967296 = n := Nat.mod_eq_of_lt (by omega)
  simp [intOfSize, h1, h]

theorem SourceFile.foldl_addLine_length (texts : List CppString) :
    ∀ sf : SourceFile,
      (texts.foldl SourceFile.addLine sf).lines.length = sf.lines.length + texts.length := by
  induction texts with
  | nil => intro sf; simp
  | cons t ts ih =>
    intro sf
    rw [List.foldl_cons, ih]
    simp [SourceFile.addLine]
    omega

/-- The lines after `addLine` was called for each text in turn. -/
theorem SourceFile.foldl_addLine_getElem? (texts : List CppString) :
    ∀ (sf : SourceFile) (i : Nat),
      (texts.foldl SourceFile.addLine sf).lines[i]? =
        if i < sf.lines.length then sf.lines[i]?
        else (texts[i - sf.lines.length]?).map
          (fun t => ({ text := t, lineNumber := intOfSize (i + 1) } : SourceLine)) := by
  induction texts with
  | nil =>
    intro sf i
    by_cases hi : i < sf.lines.length
    · simp [hi]
    · simp [hi, List.getElem?_eq_none (Nat.le_of_not_lt hi)]
  | cons t ts ih =>
    intro sf i
    rw [List.foldl_cons, ih]
    have hlen : (sf.addLine t).lines.length = sf.lines.length + 1 := by
      simp [SourceFile.addLine]
    rw [hlen]
    by_cases h1 : i < sf.lines.length
    · have h2 : i < sf.lines.length + 1 := by omega
      simp only [h1, h2, if_true, SourceFile.addLine]
      exact List.getElem?_append_left h1
    · by_cases h2 : i = sf.lines.length
      · subst h2
        simp [SourceFile.addLine]
      · have h3 : ¬ i < sf.lines.length + 1 := by omega
        have h4 : i - sf.lines.length = (i - (sf.lines.length + 1)) + 1 := by omega
        simp only [h1, h3, if_false]
        rw [h4, List.getElem?_cons_succ]

/-- C20, the defect: the guard of `SourceFile::line` is `index > (int)lines.size()`
where `index >= ...` is needed, so `line(n)` on a file of `n` lines passes the
guard and reads `lines[n]`, one past the end, instead of returning null.  On a
fresh `SourceFile` `line(0)` reads outside the empty vector; on the file loaded
from the two lines `a`, `b`, `line(2)` does.  Everything else is as the
statement has it: after `n` lines are loaded `lineCount()` is `n`, `line(i)`
for `0 <= i < n` is the `i`-th line with its text and the number `i + 1`, and
`line(i)` is null for `i < 0` and for `i > n`. -/
theorem line_reads_one_past_the_end :
    SourceFile.new.lineCount = 0
    ∧ SourceFile.new.line 0 = .outOfBounds
    ∧ (SourceFile.new.load "in.s".toList (some ["a".toList, "b".toList])).1 = true
    ∧ (SourceFile.new.load "in.s".toList (some ["a".toList, "b".toList])).2.lineCount = 2
    ∧ (SourceFile.new.load "in.s".toList (some ["a".toList, "b".toList])).2.line 0
        = .line { text := "a".toList, lineNumber := 1 }
    ∧ (SourceFile.new.load "in.s".toList (some ["a".toList, "b".toList])).2.line 1
        = .line { text := "b".toList, lineNumber := 2 }
    ∧ (SourceFile.new.load "in.s".toList (some ["a".toList, "b".toList])).2.line 2
        = .outOfBounds
    ∧ (SourceFile.new.load "in.s".toList (some ["a".toList, "b".toList])).2.line 3 = .null
    ∧ (SourceFile.new.load "in.s".toList (some ["a".toList, "b".toList])).2.line (-1) = .null
    ∧ (∀ (fileName : CppString) (texts : List CppString), texts.length < 2147483647 →
        (SourceFile.new.load fileName (some texts)).2.lineCount = (texts.length : Int)
        ∧ (∀ (i : Nat) (t : CppString), texts[i]? = some t →
            (SourceFile.new.load fileName (some texts)).2.line (i : Int)
              = .line { text := t, lineNumber := (i : Int) + 1 })
        ∧ (SourceFile.new.load fileName (some texts)).2.line (texts.length : Int)
            = .outOfBounds
        ∧ (∀ i : Int, (i < 0 ∨ i > (texts.length : Int)) →
            (SourceFile.new.load fileName (some texts)).2.line i = .null)) := by
  refine ⟨by decide, by decide, by decide, by decide, by decide, by decide, by decide,
    by decide, by decide, ?_⟩
  intro fileName texts hlen
  have hload : (SourceFile.new.load fileName (some texts)).2
      = texts.foldl SourceFile.addLine { SourceFile.new with pathname := fileName } := rfl
  have hlength : (SourceFile.new.load fileName (some texts)).2.lines.length = texts.length := by
    rw [hload, SourceFile.foldl_addLine_length]
    simp [SourceFile.new]
  have hget : ∀ i : Nat, (SourceFile.new.load fileName (some texts)).2.lines[i]?
      = (texts[i]?).map
          (fun t => ({ text := t, lineNumber := intOfSize (i + 1) } : SourceLine)) := by
    intro i
    rw [hload, SourceFile.foldl_addLine_getElem?]
    simp [SourceFile.new]
  have hsize : intOfSize texts.length = (texts.length : Int) :=
    intOfSize_of_lt _ (by omega)
  refine ⟨?_, ?_, ?_, ?_⟩
  · simp only [SourceFile.lineCount, hlength, hsize]
  · intro i t hi
    have hilt : i < texts.length := by
      by_contra hge
      rw [List.getElem?_eq_none (Nat.le_of_not_lt hge)] at hi
      exact absurd hi (by simp)
    have hguard : ¬ (((i : Nat) : Int) < 0 ∨ ((i : Nat) : Int) > (texts.length : Int)) := by
      omega
    have hnum : intOfSize (i + 1) = (i : Int) + 1 := by
      rw [intOfSize_of_lt _ (by omega)]
      simp
    simp only [SourceFile.line, hlength, hsize, hguard, if_false, Int.toNat_ofNat, hget i, hi,
      Option.map_some', hnum]
  · have hguard : ¬ (((texts.length : Nat) : Int) < 0
        ∨ ((texts.length : Nat) : Int) > (texts.length : Int)) := by omega
    have hnone : texts[texts.length]? = none := List.getElem?_eq_none (Nat.le_refl _)
    simp only [SourceFile.line, hlength, hsize, hguard, if_false, Int.toNat_ofNat,
      hget texts.length, hnone, Option.map_none']
  · intro i hi
    simp only [SourceFile.line, hlength, hsize, hi, if_true]

end Bcpu16
